import Mathlib

/-!
Verification of the transaction engine (systemd `transaction.c`, embedded in
`src/src/timer.h` of this repository snapshot).

The embedding below models the transaction engine shallowly:
* hashmaps become association lists (`List (Nat × _)`),
* the intrusive per-unit doubly-linked job lists (`transaction_prev` /
  `transaction_next`) become explicit `List Nat` values stored in the
  transaction map (the pointer surgery of `transaction_unlink_job`
  corresponds to erasing an element from that list, dropping the map entry
  when the list empties),
* `JobDependency` links live in one table keyed by link id; a job's
  `subject_list` / `object_list` are the links whose `subject` / `object`
  field names it,
* unbounded loops and recursion take an explicit fuel argument,
* allocation failure of `hashmap_put` in `transaction_apply` is driven by an
  explicit out-of-memory oracle, as in the C where `hashmap_put` may fail.

Functions from `job.c` / `unit.h` that the transaction code calls but that are
not part of `src/` (the merge tables, redundancy tables, `job_install`,
`job_finish_and_invalidate`) are modelled from the spec and marked as such.
-/

set_option maxRecDepth 8000

namespace SystemdTransaction

/-- JobType from job.h: the operations the engine knows. -/
inductive JobType
  | JOB_START
  | JOB_VERIFY_ACTIVE
  | JOB_STOP
  | JOB_RELOAD
  | JOB_RELOAD_OR_START
  | JOB_RESTART
  | JOB_TRY_RESTART
  deriving DecidableEq, Repr

/-- Job run-state; `transaction_merge_and_delete_job` resets it to waiting. -/
inductive JobState
  | JOB_WAITING
  | JOB_RUNNING
  deriving DecidableEq, Repr

/-- Unit load states referenced by the load-state gate of
`transaction_add_job_and_dependencies` (unit.h is not in src/; the members
beyond LOADED/ERROR/MASKED model the spec's stub / not-found units). -/
inductive UnitLoadState
  | UNIT_STUB
  | UNIT_LOADED
  | UNIT_NOT_FOUND
  | UNIT_ERROR
  | UNIT_MERGED
  | UNIT_MASKED
  deriving DecidableEq, Repr

/-- Unit active states (unit.h is not in src/; modelled from the spec's
active / activating / inactive / failed states). -/
inductive UnitActiveState
  | UNIT_ACTIVE
  | UNIT_RELOADING
  | UNIT_INACTIVE
  | UNIT_FAILED
  | UNIT_ACTIVATING
  | UNIT_DEACTIVATING
  deriving DecidableEq, Repr

/-- Structured bus errors set on the rejection paths (bus-errors.h). -/
inductive BusError
  | LOAD_FAILED
  | MASKED
  | JOB_TYPE_NOT_APPLICABLE
  | TRANSACTION_JOBS_CONFLICTING
  | TRANSACTION_ORDER_IS_CYCLIC
  | TRANSACTION_IS_DESTRUCTIVE
  deriving DecidableEq, Repr

/-- Job modes accepted by `transaction_activate`. -/
inductive JobMode
  | JOB_FAIL
  | JOB_REPLACE
  | JOB_ISOLATE
  deriving DecidableEq, Repr

/- errno values used by the engine (as positive constants, negated at use,
as in the C). -/

def EAGAIN : Int := 11
def ENOMEM : Int := 12
def EEXIST : Int := 17
def EINVAL : Int := 22
def ENOEXEC : Int := 8
def EBADR : Int := 53
/-- Sentinel for fuel exhaustion of the embedding; no C error code equals it. -/
def EFUEL : Int := 1000

open JobType JobState UnitLoadState UnitActiveState

/-- Modelled from the spec: `job_type_merge` (job.c is not in src/).  The
least upper bound of the spec's merge lattice (section 4.1): equal types
merge to themselves; START absorbs VERIFY_ACTIVE; START with RELOAD gives
RELOAD_OR_START; RESTART absorbs START, RELOAD and TRY_RESTART; STOP merges
only with STOP and TRY_RESTART; pairs the spec does not list do not merge. -/
def job_type_merge : JobType → JobType → Option JobType := fun a b =>
  if a = b then some a
  else
    match a, b with
    | JOB_START, JOB_VERIFY_ACTIVE | JOB_VERIFY_ACTIVE, JOB_START => some JOB_START
    | JOB_START, JOB_RELOAD | JOB_RELOAD, JOB_START => some JOB_RELOAD_OR_START
    | JOB_START, JOB_RESTART | JOB_RESTART, JOB_START => some JOB_RESTART
    | JOB_START, JOB_RELOAD_OR_START | JOB_RELOAD_OR_START, JOB_START => some JOB_RELOAD_OR_START
    | JOB_VERIFY_ACTIVE, JOB_RELOAD_OR_START | JOB_RELOAD_OR_START, JOB_VERIFY_ACTIVE =>
        some JOB_RELOAD_OR_START
    | JOB_RELOAD, JOB_RELOAD_OR_START | JOB_RELOAD_OR_START, JOB_RELOAD => some JOB_RELOAD_OR_START
    | JOB_RELOAD, JOB_RESTART | JOB_RESTART, JOB_RELOAD => some JOB_RESTART
    | JOB_TRY_RESTART, JOB_RESTART | JOB_RESTART, JOB_TRY_RESTART => some JOB_RESTART
    | JOB_TRY_RESTART, JOB_STOP | JOB_STOP, JOB_TRY_RESTART => some JOB_STOP
    | _, _ => none

/-- Modelled from the spec: `job_type_is_mergeable` (job.c is not in src/). -/
def job_type_is_mergeable (a b : JobType) : Bool := (job_type_merge a b).isSome

/-- Modelled from the spec: `job_type_is_conflicting` (job.c is not in src/):
STOP is conflicting with everything except STOP. -/
def job_type_is_conflicting (a b : JobType) : Bool :=
  (decide (a = JOB_STOP)) != (decide (b = JOB_STOP))

/-- Modelled from the spec: `job_type_is_redundant` (job.c is not in src/):
whether applying the type to a unit already in the given active state would
do nothing (START on active, STOP on inactive/failed, ...). -/
def job_type_is_redundant (a : JobType) (b : UnitActiveState) : Bool :=
  match a with
  | JOB_START => b = UNIT_ACTIVE || b = UNIT_RELOADING
  | JOB_VERIFY_ACTIVE => b = UNIT_ACTIVE || b = UNIT_RELOADING
  | JOB_STOP => b = UNIT_INACTIVE || b = UNIT_FAILED
  | JOB_RELOAD => b = UNIT_RELOADING
  | JOB_RELOAD_OR_START => b = UNIT_RELOADING
  | JOB_RESTART => b = UNIT_ACTIVATING
  | JOB_TRY_RESTART => b = UNIT_ACTIVATING

/-- Modelled from the spec: `job_type_is_superset` (job.c is not in src/):
whether type a achieves everything type b would. -/
def job_type_is_superset (a b : JobType) : Bool :=
  if a = b then true
  else
    match a, b with
    | JOB_START, JOB_VERIFY_ACTIVE => true
    | JOB_RELOAD_OR_START, JOB_START => true
    | JOB_RELOAD_OR_START, JOB_VERIFY_ACTIVE => true
    | JOB_RELOAD_OR_START, JOB_RELOAD => true
    | JOB_RESTART, JOB_START => true
    | JOB_RESTART, JOB_VERIFY_ACTIVE => true
    | JOB_RESTART, JOB_RELOAD => true
    | JOB_RESTART, JOB_RELOAD_OR_START => true
    | JOB_RESTART, JOB_TRY_RESTART => true
    | JOB_TRY_RESTART, JOB_VERIFY_ACTIVE => true
    | _, _ => false

/-- Modelled from unit.h's UNIT_IS_ACTIVE_OR_ACTIVATING macro (not in src/). -/
def UNIT_IS_ACTIVE_OR_ACTIVATING (s : UnitActiveState) : Bool :=
  s = UNIT_ACTIVE || s = UNIT_RELOADING || s = UNIT_ACTIVATING

/-- The slice of a Unit the transaction engine reads (unit.h is not in src/;
fields follow the external-interface section of the spec).  Dependency sets
are lists of unit ids; `applicable_types` models the external
`unit_job_is_applicable` unit-class gate; `job` is the currently installed
live job, if any. -/
structure Unit where
  id : Nat
  load_state : UnitLoadState
  active_state : UnitActiveState
  job : Option Nat
  requires : List Nat
  requires_overridable : List Nat
  requisite : List Nat
  requisite_overridable : List Nat
  wants : List Nat
  bind_to : List Nat
  required_by : List Nat
  bound_by : List Nat
  conflicts : List Nat
  conflicted_by : List Nat
  before : List Nat
  propagate_reload_to : List Nat
  following : List Nat
  applicable_types : List JobType
  deriving DecidableEq, Repr

/-- Modelled from the spec: `unit_job_is_applicable` (job.c is not in src/),
a unit-class gate represented as the set of applicable types on the unit. -/
def unit_job_is_applicable (u : Unit) (t : JobType) : Bool :=
  u.applicable_types.contains t

/-- One pending operation on one unit (struct Job of job.h, the fields the
transaction engine uses). -/
structure Job where
  id : Nat
  unit : Nat
  type : JobType
  state : JobState
  installed : Bool
  override : Bool
  ignore_order : Bool
  matters_to_anchor : Bool
  generation : Nat
  marker : Option Nat
  deriving DecidableEq, Repr

/-- Directed link between two jobs (struct JobDependency). -/
structure JobDependency where
  subject : Nat
  object : Nat
  matters : Bool
  conflicts : Bool
  deriving DecidableEq, Repr

/-- The whole mutable world of the engine: the unit registry, the job pool,
the link table, the transaction (unit id to per-unit job-id list, plus the
anchor), the manager's live-job map, and bookkeeping for frees, fresh ids
and the external queues notified at commit. -/
structure State where
  units : List (Nat × Unit)
  pool : List (Nat × Job)
  links : List (Nat × JobDependency)
  tr_jobs : List (Nat × List Nat)
  anchor_job : Option Nat
  m_jobs : List (Nat × Nat)
  freed : List Nat
  next_job_id : Nat
  next_link_id : Nat
  run_queue : List Nat
  dbus_queue : List Nat
  timers : List Nat
  deriving DecidableEq, Repr

def defaultUnit : Unit :=
  ⟨0, UNIT_STUB, UNIT_INACTIVE, none, [], [], [], [], [], [], [], [], [], [], [], [], [], []⟩

def defaultJob : Job :=
  ⟨0, 0, JOB_STOP, JOB_WAITING, false, false, false, false, 0, none⟩

def getUnit (s : State) (u : Nat) : Unit := (s.units.lookup u).getD defaultUnit

def getJob (s : State) (j : Nat) : Job := (s.pool.lookup j).getD defaultJob

def setJob (s : State) (jid : Nat) (f : Job → Job) : State :=
  { s with pool := s.pool.map (fun p => if p.1 = jid then (p.1, f p.2) else p) }

def setUnit (s : State) (uid : Nat) (f : Unit → Unit) : State :=
  { s with units := s.units.map (fun p => if p.1 = uid then (p.1, f p.2) else p) }

/-- Remove a key from an association list (hashmap_remove). -/
def alist_remove {α : Type} (m : List (Nat × α)) (k : Nat) : List (Nat × α) :=
  m.filter (fun p => p.1 ≠ k)

/-- Replace the value under a key, inserting it if absent (hashmap_replace). -/
def alist_set {α : Type} (m : List (Nat × α)) (k : Nat) (v : α) : List (Nat × α) :=
  if (m.lookup k).isSome then m.map (fun p => if p.1 = k then (k, v) else p)
  else (k, v) :: m

/-- The links on a job's subject_list: links it is the subject of. -/
def subjectLinks (s : State) (j : Nat) : List (Nat × JobDependency) :=
  s.links.filter (fun p => p.2.subject = j)

/-- The links on a job's object_list: links it is the object of. -/
def objectLinks (s : State) (j : Nat) : List (Nat × JobDependency) :=
  s.links.filter (fun p => p.2.object = j)

/-- job_is_conflicted_by (timer.h lines 167-180): true if the job is pulled
in by at least one conflicts link. -/
def job_is_conflicted_by (s : State) (j : Nat) : Bool :=
  (objectLinks s j).any (fun p => p.2.conflicts)

/-- job_free (job.c, not in src/): the record id is retired.  The pool keeps
the record so that later statements can refer to the fields the job had. -/
def job_free (s : State) (j : Nat) : State := { s with freed := j :: s.freed }

/-- job_dependency_free (job.c, not in src/): unthread the link from both
endpoints' lists; here, drop it from the link table. -/
def job_dependency_free (s : State) (lid : Nat) : State :=
  { s with links := s.links.filter (fun p => p.1 ≠ lid) }

/-- The transaction_prev/transaction_next surgery of transaction_unlink_job
(timer.h lines 812-822): detach the job from its unit's list.  Removing the
head of a singleton list removes the map entry (hashmap_remove_value);
removing the head of a longer list promotes the next job (hashmap_replace);
a job that is in no list (a live installed job) leaves the map untouched. -/
def tr_detach (s : State) (j : Nat) : State :=
  let u := (getJob s j).unit
  match s.tr_jobs.lookup u with
  | none => s
  | some l =>
      let l2 := l.erase j
      if l2 = [] then { s with tr_jobs := alist_remove s.tr_jobs u }
      else { s with tr_jobs := alist_set s.tr_jobs u l2 }

mutual

/-- transaction_delete_job (timer.h lines 55-65): unlink the job from the
transaction's bookkeeping; free it only if it is not installed. -/
def transaction_delete_job (fuel : Nat) (s : State) (j : Nat) (dd : Bool) : State :=
  match fuel with
  | 0 => s
  | fuel + 1 =>
      let s1 := transaction_unlink_job fuel s j dd
      if (getJob s1 j).installed then s1 else job_free s1 j

/-- transaction_unlink_job (timer.h lines 808-839): detach from the per-unit
list, free all subject links, then walk the object links: each is freed, and
when it matters and delete_dependencies is set, the subject job that exists
only to serve this one is deleted as well. -/
def transaction_unlink_job (fuel : Nat) (s : State) (j : Nat) (dd : Bool) : State :=
  match fuel with
  | 0 => s
  | fuel + 1 =>
      let s1 := tr_detach s j
      let s2 := { s1 with links := s1.links.filter (fun p => p.2.subject ≠ j) }
      unlink_object_loop fuel s2 j dd

/-- The while loop over j's object_list in transaction_unlink_job (timer.h
lines 827-838), re-reading the list head each iteration as the C does. -/
def unlink_object_loop (fuel : Nat) (s : State) (j : Nat) (dd : Bool) : State :=
  match fuel with
  | 0 => s
  | fuel + 1 =>
      match s.links.find? (fun p => p.2.object = j) with
      | none => s
      | some (lid, l) =>
          let other : Option Nat := if l.matters then some l.subject else none
          let s1 := job_dependency_free s lid
          match other with
          | some o =>
              if dd then unlink_object_loop fuel (transaction_delete_job fuel s1 o dd) j dd
              else unlink_object_loop fuel s1 j dd
          | none => unlink_object_loop fuel s1 j dd

end

/-- transaction_delete_unit (timer.h lines 67-75): delete all jobs of a unit
from the transaction, head by head, until the map no longer has the unit. -/
def transaction_delete_unit (fuel : Nat) (s : State) (u : Nat) : State :=
  match fuel with
  | 0 => s
  | fuel + 1 =>
      match s.tr_jobs.lookup u with
      | some (j :: _) => transaction_delete_unit fuel (transaction_delete_job fuel s j true) u
      | some [] => transaction_delete_unit fuel { s with tr_jobs := alist_remove s.tr_jobs u } u
      | none => s

/-- transaction_abort (timer.h lines 77-86): drop every job in the
transaction (hashmap_first picks the first entry's head job). -/
def transaction_abort (fuel : Nat) (s : State) : State :=
  match fuel with
  | 0 => s
  | fuel + 1 =>
      match s.tr_jobs with
      | [] => s
      | (u, []) :: _ => transaction_abort fuel { s with tr_jobs := alist_remove s.tr_jobs u }
      | (_, j :: _) :: _ => transaction_abort fuel (transaction_delete_job fuel s j true)

/-- transaction_merge_and_delete_job (timer.h lines 113-165): merge `other`
into `j` and delete `other`.  The target takes the merged type, a reset
state, the or of the override and matters flags; both link lists of `other`
are patched to name `j` (in this embedding, reassigning the endpoint fields
of every link that references `other` is precisely the list concatenation of
the C); `other`'s own lists are thereby emptied, so the final
transaction_delete_job cannot cascade through them. -/
def transaction_merge_and_delete_job (fuel : Nat) (s : State) (j other : Nat)
    (t : JobType) : State :=
  let oj := getJob s other
  let s1 := setJob s j (fun x =>
    { x with type := t, state := JOB_WAITING,
             override := x.override || oj.override,
             matters_to_anchor := x.matters_to_anchor || oj.matters_to_anchor })
  let s2 := { s1 with links := s1.links.map (fun p =>
      (p.1, { p.2 with
                subject := if p.2.subject = other then j else p.2.subject,
                object := if p.2.object = other then j else p.2.object })) }
  transaction_delete_job fuel s2 other true

/-- The element after `j` in its unit's per-unit list: j's transaction_next. -/
def nextAfter : List Nat → Nat → Option Nat
  | [], _ => none
  | [_], _ => none
  | a :: b :: rest, j => if a = j then some b else nextAfter (b :: rest) j

def job_next_in_list (s : State) (j : Nat) : Option Nat :=
  match s.tr_jobs.lookup (getJob s j).unit with
  | none => none
  | some l => nextAfter l j

/-- The decision of delete_one_unmergeable_job on one conflicting pair
(timer.h lines 204-239): some d means job d is dropped, none means
-ENOEXEC (nothing may be dropped). -/
def unmergeable_pick (s : State) (a k : Nat) : Option Nat :=
  let ja := getJob s a
  let jk := getJob s k
  if !ja.matters_to_anchor && !jk.matters_to_anchor then
    some (if ja.type = JOB_STOP then (if job_is_conflicted_by s a then k else a)
          else if jk.type = JOB_STOP then (if job_is_conflicted_by s k then a else k)
          else a)
  else if !ja.matters_to_anchor then some a
  else if !jk.matters_to_anchor then some k
  else none

/-- Inner loop of delete_one_unmergeable_job: scan the partners after `a`
for the first type that does not merge with `a`'s; the first such pair
commits the decision. -/
def delete_one_inner (s : State) (a : Nat) : List Nat → Option (Option Nat)
  | [] => none
  | k :: ks =>
      if job_type_is_mergeable (getJob s a).type (getJob s k).type then
        delete_one_inner s a ks
      else some (unmergeable_pick s a k)

/-- Outer loop of delete_one_unmergeable_job over the per-unit list. -/
def delete_one_outer (s : State) : List Nat → Option (Option Nat)
  | [] => none
  | a :: rest =>
      match delete_one_inner s a rest with
      | some res => some res
      | none => delete_one_outer s rest

/-- delete_one_unmergeable_job (timer.h lines 182-248): try to delete one
item of the per-unit list that conflicts with another one.  0 when a job was
dropped, -ENOEXEC when the first conflicting pair both matter to the anchor,
-EINVAL when no conflicting pair exists. -/
def delete_one_unmergeable_job (fuel : Nat) (s : State) (l : List Nat) : Int × State :=
  match delete_one_outer s l with
  | some (some d) => (0, transaction_delete_job fuel s d true)
  | some none => (-ENOEXEC, s)
  | none => (-EINVAL, s)

/-- Fold job_type_merge over the types of the jobs in the list, starting
from t (the first loop of both steps of transaction_merge_jobs). -/
def merge_fold (s : State) (t : JobType) : List Nat → Option JobType
  | [] => some t
  | k :: ks =>
      match job_type_merge t (getJob s k).type with
      | none => none
      | some t2 => merge_fold s t2 ks

/-- First step of transaction_merge_jobs (timer.h lines 259-284) on one
entry: when the types of the unit's jobs do not all merge, try to drop one
unmergeable job; on success ask the caller to run again (-EAGAIN), otherwise
report TRANSACTION_JOBS_CONFLICTING. -/
def merge_check_one (fuel : Nat) (s : State) (l : List Nat) :
    Option (Int × Option BusError × State) :=
  match l with
  | [] => none
  | j :: rest =>
      if (merge_fold s (getJob s j).type rest).isSome then none
      else
        let res := delete_one_unmergeable_job fuel s (j :: rest)
        if res.1 ≥ 0 then some (-EAGAIN, none, res.2)
        else some (res.1, some BusError.TRANSACTION_JOBS_CONFLICTING, res.2)

def merge_step1 (fuel : Nat) (s : State) :
    List (Nat × List Nat) → Option (Int × Option BusError × State)
  | [] => none
  | (_, l) :: rest =>
      match merge_check_one fuel s l with
      | some out => some out
      | none => merge_step1 fuel s rest

/-- The collapsing while loop of transaction_merge_jobs (timer.h lines
299-305): as long as the current job has a transaction_next, merge the pair,
keeping the uninstalled one as the target. -/
def merge_collapse (fuel : Nat) (s : State) (j : Nat) (t : JobType) : State × Nat :=
  match fuel with
  | 0 => (s, j)
  | fuel + 1 =>
      match job_next_in_list s j with
      | none => (s, j)
      | some k =>
          if (getJob s j).installed then
            merge_collapse fuel (transaction_merge_and_delete_job fuel s k j t) k t
          else
            merge_collapse fuel (transaction_merge_and_delete_job fuel s j k t) j t

/-- Second step of transaction_merge_jobs (timer.h lines 287-312) on one
unit: recompute the merged type (asserted to succeed after step one), merge
the live job's type into it when that succeeds, collapse the list, and merge
the unit's live job into the survivor when one exists and the survivor is
not installed. -/
def merge_step2_one (fuel : Nat) (s : State) (u : Nat) : State :=
  match s.tr_jobs.lookup u with
  | none => s
  | some [] => s
  | some (j :: rest) =>
      match merge_fold s (getJob s j).type rest with
      | none => s
      | some t0 =>
          let t :=
            match (getUnit s (getJob s j).unit).job with
            | some lj => (job_type_merge t0 (getJob s lj).type).getD t0
            | none => t0
          let mc := merge_collapse fuel s j t
          let s1 := mc.1
          let j2 := mc.2
          match (getUnit s1 (getJob s1 j2).unit).job with
          | some lj =>
              if (getJob s1 j2).installed then s1
              else transaction_merge_and_delete_job fuel s1 j2 lj t
          | none => s1

/-- transaction_merge_jobs (timer.h lines 250-315). -/
def transaction_merge_jobs (fuel : Nat) (s : State) : Int × Option BusError × State :=
  match merge_step1 fuel s s.tr_jobs with
  | some out => out
  | none =>
      let keys := s.tr_jobs.map Prod.fst
      (0, none, keys.foldl (fun s1 u => merge_step2_one fuel s1 u) s)

/-- The continue-condition of transaction_drop_redundant (timer.h lines
337-339): job k may be dropped when it is not the anchor, is installed or
redundant for its unit's active state, and does not conflict with the
unit's live job. -/
def drop_redundant_check (s : State) (k : Nat) : Bool :=
  let kj := getJob s k
  (s.anchor_job != some k) &&
  (kj.installed || job_type_is_redundant kj.type (getUnit s kj.unit).active_state) &&
  (match (getUnit s kj.unit).job with
   | none => true
   | some lj => !job_type_is_conflicting kj.type (getJob s lj).type)

/-- One sweep of transaction_drop_redundant: the first entry all of whose
jobs pass the check has its head deleted. -/
def drop_redundant_find (s : State) : List (Nat × List Nat) → Option Nat
  | [] => none
  | (_, l) :: rest =>
      match l with
      | [] => drop_redundant_find s rest
      | j :: _ =>
          if l.all (fun k => drop_redundant_check s k) then some j
          else drop_redundant_find s rest

/-- transaction_drop_redundant (timer.h lines 317-356): delete whole-noop
units until a sweep changes nothing. -/
def transaction_drop_redundant (fuel : Nat) (s : State) : State :=
  match fuel with
  | 0 => s
  | fuel + 1 =>
      match drop_redundant_find s s.tr_jobs with
      | none => s
      | some j => transaction_drop_redundant fuel (transaction_delete_job fuel s j false)

/-- The suffix of the list starting at the first occurrence of j, if any. -/
def suffixFrom : List Nat → Nat → Option (List Nat)
  | [], _ => none
  | a :: rest, j => if a = j then some (a :: rest) else suffixFrom rest j

/-- unit_matters_to_anchor (timer.h lines 358-370): whether at least one of
the unit's jobs, iterating from j through its transaction_next chain,
matters to the anchor.  A job that is in no per-unit list (a live installed
job) has no next, so only itself is examined. -/
def unit_matters_to_anchor (s : State) (u : Nat) (j : Nat) : Bool :=
  match suffixFrom ((s.tr_jobs.lookup u).getD []) j with
  | some suf => suf.any (fun k => (getJob s k).matters_to_anchor)
  | none => (getJob s j).matters_to_anchor

/-- One sweep of transaction_collect_garbage (timer.h lines 503-516): the
first head job that is not the anchor and has an empty object_list. -/
def collect_garbage_find (s : State) : List (Nat × List Nat) → Option Nat
  | [] => none
  | (_, l) :: rest =>
      match l with
      | [] => collect_garbage_find s rest
      | j :: _ =>
          if s.anchor_job == some j || !(objectLinks s j).isEmpty then
            collect_garbage_find s rest
          else some j

/-- transaction_collect_garbage (timer.h lines 490-519). -/
def transaction_collect_garbage (fuel : Nat) (s : State) : State :=
  match fuel with
  | 0 => s
  | fuel + 1 =>
      match collect_garbage_find s s.tr_jobs with
      | none => s
      | some j => transaction_collect_garbage fuel (transaction_delete_job fuel s j true)

/-- The per-job test of transaction_minimize_impact (timer.h lines 562-594):
a job that does not matter to the anchor and would stop a running service or
change an existing job is dropped. -/
def minimize_impact_check (s : State) (k : Nat) : Bool :=
  let kj := getJob s k
  if kj.matters_to_anchor then false
  else
    (kj.type = JOB_STOP && UNIT_IS_ACTIVE_OR_ACTIVATING (getUnit s kj.unit).active_state) ||
    (match (getUnit s kj.unit).job with
     | some lj => job_type_is_conflicting kj.type (getJob s lj).type
     | none => false)

def minimize_impact_find (s : State) : List (Nat × List Nat) → Option Nat
  | [] => none
  | (_, l) :: rest =>
      match l.find? (fun k => minimize_impact_check s k) with
      | some k => some k
      | none => minimize_impact_find s rest

/-- transaction_minimize_impact (timer.h lines 548-602). -/
def transaction_minimize_impact (fuel : Nat) (s : State) : State :=
  match fuel with
  | 0 => s
  | fuel + 1 =>
      match minimize_impact_find s s.tr_jobs with
      | none => s
      | some j => transaction_minimize_impact fuel (transaction_delete_job fuel s j true)

/-- transaction_is_destructive (timer.h lines 521-546): fails when some
(merged) transaction job would replace a different live job whose type it
does not subsume. -/
def transaction_is_destructive (s : State) : Int × Option BusError :=
  if s.tr_jobs.any (fun p =>
      match p.2 with
      | j :: _ =>
          (match (getUnit s (getJob s j).unit).job with
           | some lj => lj ≠ j && !job_type_is_superset (getJob s j).type (getJob s lj).type
           | none => false)
      | [] => false)
  then (-EEXIST, some BusError.TRANSACTION_IS_DESTRUCTIVE)
  else (0, none)

mutual

/-- transaction_find_jobs_that_matter_to_anchor (timer.h lines 88-111):
recursive sweep from the anchor along matters links, marking jobs and
stamping the generation to avoid revisits. -/
def find_matter (fuel : Nat) (s : State) (j : Nat) (gen : Nat) : State :=
  match fuel with
  | 0 => s
  | fuel + 1 =>
      let s1 := setJob s j (fun x => { x with matters_to_anchor := true, generation := gen })
      find_matter_links fuel s1 (subjectLinks s1 j) gen

def find_matter_links (fuel : Nat) (s : State) (ls : List (Nat × JobDependency))
    (gen : Nat) : State :=
  match fuel with
  | 0 => s
  | fuel + 1 =>
      match ls with
      | [] => s
      | (_, l) :: rest =>
          if !l.matters then find_matter_links fuel s rest gen
          else if (getJob s l.object).generation = gen then find_matter_links fuel s rest gen
          else find_matter_links fuel (find_matter fuel s l.object gen) rest gen

end

/-- The backward walk of the cycle breaker (timer.h line 403): from `k`,
follow the markers while the generation matches and the marker is not the
self pointer, stopping after the cycle head `j`.  The accumulator keeps the
first droppable node found, exactly as the C's `delete` variable. -/
def cycle_walk (s : State) (gen j : Nat) : Nat → Option Nat → Option Nat → Option Nat
  | 0, _, del => del
  | _ + 1, none, del => del
  | fuel + 1, some k, del =>
      let kj := getJob s k
      let del2 :=
        match del with
        | some _ => del
        | none =>
            if !kj.installed && !unit_matters_to_anchor s kj.unit k then some k else none
      if k = j then del2
      else
        cycle_walk s gen j fuel
          (if kj.generation = gen && kj.marker != some k then kj.marker else none) del2

/-- The nodes the cycle breaker walks, in walk order (the same chase as
cycle_walk, without the selection). -/
def cycle_path (s : State) (gen j : Nat) : Nat → Option Nat → List Nat
  | 0, _ => []
  | _ + 1, none => []
  | fuel + 1, some k =>
      let kj := getJob s k
      if k = j then [k]
      else
        k :: cycle_path s gen j fuel
          (if kj.generation = gen && kj.marker != some k then kj.marker else none)

mutual

/-- transaction_verify_order_one (timer.h lines 372-467): DFS over the
ordering graph.  A revisit with a live marker is a back-edge: walk the
recorded path, delete the first droppable node's unit and ask to be run
again, or fail with TRANSACTION_ORDER_IS_CYCLIC.  Otherwise stamp marker and
generation, recurse over the UNIT_BEFORE dependencies (a unit contributes
its transaction job, or failing that its installed job), then clear the
marker on backtrack. -/
def transaction_verify_order_one (fuel : Nat) (s : State) (j : Nat)
    (from_ : Option Nat) (gen : Nat) : Int × Option BusError × State :=
  match fuel with
  | 0 => (-EFUEL, none, s)
  | fuel + 1 =>
      let jj := getJob s j
      if jj.generation = gen then
        if jj.marker = none then (0, none, s)
        else
          match cycle_walk s gen j (s.pool.length + 1) from_ none with
          | some d => (-EAGAIN, none, transaction_delete_unit fuel s (getJob s d).unit)
          | none => (-ENOEXEC, some BusError.TRANSACTION_ORDER_IS_CYCLIC, s)
      else
        let s1 := setJob s j (fun x =>
          { x with marker := some (from_.getD j), generation := gen })
        let vd := verify_order_deps fuel s1 ((getUnit s1 jj.unit).before) j gen
        match vd.1 with
        | some r => (r, vd.2.1, vd.2.2)
        | none => (0, none, setJob vd.2.2 j (fun x => { x with marker := none }))

/-- The SET_FOREACH over dependencies[UNIT_BEFORE] (timer.h lines 443-460).
The first component is some r when the recursion failed with r. -/
def verify_order_deps (fuel : Nat) (s : State) (us : List Nat) (j : Nat)
    (gen : Nat) : Option Int × Option BusError × State :=
  match fuel with
  | 0 => (some (-EFUEL), none, s)
  | fuel + 1 =>
      match us with
      | [] => (none, none, s)
      | u :: rest =>
          let o : Option Nat :=
            match s.tr_jobs.lookup u with
            | some (o :: _) => some o
            | _ => (getUnit s u).job
          match o with
          | none => verify_order_deps fuel s rest j gen
          | some o =>
              let res := transaction_verify_order_one fuel s o (some j) gen
              if res.1 < 0 then (some res.1, res.2.1, res.2.2)
              else verify_order_deps fuel res.2.2 rest j gen

end

/-- transaction_verify_order (timer.h lines 469-488): run the DFS from every
transaction job (hashmap values are the per-unit list heads). -/
def verify_order_heads (fuel : Nat) (s : State) (js : List Nat) (gen : Nat) :
    Int × Option BusError × State :=
  match js with
  | [] => (0, none, s)
  | j :: rest =>
      let res := transaction_verify_order_one fuel s j none gen
      if res.1 < 0 then res else verify_order_heads fuel res.2.2 rest gen

def transaction_verify_order (fuel : Nat) (s : State) (gen : Nat) :
    Int × Option BusError × State :=
  verify_order_heads fuel s (s.tr_jobs.filterMap (fun p => p.2.head?)) gen

/-- hashmap_put: 0 when the key is already bound to this value, -EEXIST when
bound to another, -ENOMEM when the allocation oracle says so, else insert. -/
def hashmap_put (oomFlag : Bool) (m : List (Nat × Nat)) (k v : Nat) :
    Int × List (Nat × Nat) :=
  match m.lookup k with
  | some w => if w = v then (0, m) else (-EEXIST, m)
  | none => if oomFlag then (-ENOMEM, m) else (1, (k, v) :: m)

/-- Install phase of transaction_apply (timer.h lines 630-641): put every
not-yet-installed transaction job into the manager map under its id; the
counter indexes the allocation oracle. -/
def apply_install (s : State) (oom : Nat → Bool) :
    List Nat → List (Nat × Nat) → Nat → Int × List (Nat × Nat)
  | [], m, _ => (0, m)
  | j :: js, m, n =>
      if (getJob s j).installed then apply_install s oom js m n
      else
        let res := hashmap_put (oom n) m (getJob s j).id j
        if res.1 < 0 then res else apply_install s oom js res.2 (n + 1)

/-- Rollback of transaction_apply (timer.h lines 661-670): remove the id of
every not-yet-installed transaction job from the manager map. -/
def apply_rollback (s : State) : List Nat → List (Nat × Nat) → List (Nat × Nat)
  | [], m => m
  | j :: js, m =>
      if (getJob s j).installed then apply_rollback s js m
      else apply_rollback s js (alist_remove m (getJob s j).id)

/-- Modelled from the spec: job_install (job.c is not in src/) makes the job
live: the installed flag is set and the unit's job pointer published. -/
def job_install (s : State) (j : Nat) : State :=
  let s1 := setJob s j (fun x => { x with installed := true })
  setUnit s1 (getJob s1 j).unit (fun u => { u with job := some j })

/-- Commit phase of transaction_apply (timer.h lines 643-657):
hashmap_steal_first picks the first entry's head; already installed jobs are
skipped, fresh ones are unlinked from the transaction bookkeeping (without
cascading), installed, and handed to the run, bus and timer queues. -/
def apply_commit (fuel : Nat) (s : State) : State :=
  match fuel with
  | 0 => s
  | fuel + 1 =>
      match s.tr_jobs with
      | [] => s
      | (u, []) :: _ => apply_commit fuel { s with tr_jobs := alist_remove s.tr_jobs u }
      | (u, j :: _) :: _ =>
          if (getJob s j).installed then
            apply_commit fuel { s with tr_jobs := alist_remove s.tr_jobs u }
          else
            let s1 := transaction_unlink_job fuel s j false
            let s2 := job_install s1 j
            apply_commit fuel
              { s2 with run_queue := s2.run_queue ++ [j],
                        dbus_queue := s2.dbus_queue ++ [j],
                        timers := s2.timers ++ [j] }

/-- Modelled from the spec: the isolate cancel-sweep of transaction_apply
(timer.h lines 611-628).  job_finish_and_invalidate (job.c, not in src/)
finishes a live job with JOB_CANCELED and removes it from the live set;
every live job whose unit has no transaction job is cancelled.  The
dependency cascading that forces the C to rescan is not modelled. -/
def isolate_sweep (s : State) : State :=
  { s with m_jobs := s.m_jobs.filter (fun p =>
      (s.tr_jobs.lookup (getJob s p.2).unit).isSome) }

/-- transaction_apply (timer.h lines 604-671). -/
def transaction_apply (fuel : Nat) (s : State) (mode : JobMode) (oom : Nat → Bool) :
    Int × State :=
  let s0 := if mode = JobMode.JOB_ISOLATE then isolate_sweep s else s
  let heads := s0.tr_jobs.filterMap (fun p => p.2.head?)
  let res := apply_install s0 oom heads s0.m_jobs 0
  if res.1 < 0 then (res.1, { s0 with m_jobs := apply_rollback s0 heads res.2 })
  else (0, apply_commit fuel { s0 with m_jobs := res.2 })

/-- Steps four and five of transaction_activate (timer.h lines 694-713):
garbage collect (outside isolate mode), verify the ordering, and loop while
the cycle breaker asks to be run again; the generation counter advances on
every verification pass. -/
def activate_order_loop (fuel : Nat) (s : State) (mode : JobMode) (gen : Nat) :
    Option Int × Option BusError × State × Nat :=
  match fuel with
  | 0 => (some (-EFUEL), none, s, gen)
  | fuel + 1 =>
      let s1 := if mode ≠ JobMode.JOB_ISOLATE then transaction_collect_garbage fuel s else s
      let res := transaction_verify_order fuel s1 gen
      if res.1 ≥ 0 then (none, none, res.2.2, gen + 1)
      else if res.1 = -EAGAIN then activate_order_loop fuel res.2.2 mode (gen + 1)
      else (some res.1, res.2.1, res.2.2, gen + 1)

/-- Steps six and seven of transaction_activate (timer.h lines 715-735):
merge, and while a job was dropped garbage collect and try again. -/
def activate_merge_loop (fuel : Nat) (s : State) (mode : JobMode) :
    Option Int × Option BusError × State :=
  match fuel with
  | 0 => (some (-EFUEL), none, s)
  | fuel + 1 =>
      let res := transaction_merge_jobs fuel s
      if res.1 ≥ 0 then (none, none, res.2.2)
      else if res.1 = -EAGAIN then
        let s2 :=
          if mode ≠ JobMode.JOB_ISOLATE then transaction_collect_garbage fuel res.2.2
          else res.2.2
        activate_merge_loop fuel s2 mode
      else (some res.1, res.2.1, res.2.2)

/-- transaction_activate (timer.h lines 673-759). -/
def transaction_activate (fuel : Nat) (s : State) (mode : JobMode) (oom : Nat → Bool) :
    Int × Option BusError × State :=
  match s.anchor_job with
  | none => (-EINVAL, none, s)
  | some a =>
      let s1 := find_matter fuel s a 1
      let s2 := if mode = JobMode.JOB_FAIL then transaction_minimize_impact fuel s1 else s1
      let s3 := transaction_drop_redundant fuel s2
      let ol := activate_order_loop fuel s3 mode 2
      match ol.1 with
      | some r => (r, ol.2.1, ol.2.2.1)
      | none =>
          let s4 := ol.2.2.1
          let ml := activate_merge_loop fuel s4 mode
          match ml.1 with
          | some r => (r, ml.2.1, ml.2.2)
          | none =>
              let s6 := transaction_drop_redundant fuel ml.2.2
              let dc := if mode = JobMode.JOB_FAIL then transaction_is_destructive s6
                        else (0, none)
              if dc.1 < 0 then (dc.1, dc.2, s6)
              else
                let ap := transaction_apply fuel s6 mode oom
                if ap.1 < 0 then (ap.1, none, ap.2) else (0, none, ap.2)

/-- transaction_add_one_job (timer.h lines 761-806): look for an existing
prospective job of this type on the unit's list; otherwise create one
(job_new is job.c, not in src/: a fresh id, waiting, not installed), clear
the traversal scratch, record the override flavor, and prepend it to the
unit's list.  Allocation is not made to fail in this embedding. -/
def transaction_add_one_job (s : State) (type : JobType) (unit : Nat) (ovr : Bool) :
    Nat × Bool × State :=
  let f := (s.tr_jobs.lookup unit).getD []
  match f.find? (fun j => (getJob s j).type == type) with
  | some j => (j, false, s)
  | none =>
      let id := s.next_job_id
      let job : Job :=
        { id := id, unit := unit, type := type, state := JOB_WAITING,
          installed := false, override := ovr, ignore_order := false,
          matters_to_anchor := false, generation := 0, marker := none }
      (id, true,
        { s with pool := (id, job) :: s.pool,
                 next_job_id := s.next_job_id + 1,
                 tr_jobs := alist_set s.tr_jobs unit (id :: f) })

/-- job_dependency_new (job.c, not in src/): construct a link and thread it
into both endpoints' lists.  Allocation is not made to fail here. -/
def job_dependency_new (s : State) (subject object : Nat) (matters conflicts : Bool) :
    State :=
  { s with links := (s.next_link_id, ⟨subject, object, matters, conflicts⟩) :: s.links,
           next_link_id := s.next_link_id + 1 }

/-- One SET_FOREACH dependency-expansion loop of
transaction_add_job_and_dependencies.  With failMode set (the "fail on
error" kinds, timer.h lines 931-951, 973-982, 994-1003, 1019-1039) a
recursive failure other than -EBADR aborts the loop; everything else is
logged and skipped (dbus_error_free), continuing with the state the failed
recursion left behind, as the C does. -/
def dep_loop (recurse : State → Nat → Int × Option BusError × State) (failMode : Bool) :
    List Nat → State → Int × Option BusError × State
  | [], s => (0, none, s)
  | d :: ds, s =>
      let res := recurse s d
      if res.1 < 0 then
        if failMode && res.1 ≠ -EBADR then res
        else dep_loop recurse failMode ds res.2.2
      else dep_loop recurse failMode ds res.2.2

/-- Sequencing of the expansion blocks: a failed block aborts the add. -/
def seqDep (prev : Int × Option BusError × State)
    (next : State → Int × Option BusError × State) : Int × Option BusError × State :=
  if prev.1 < 0 then prev else next prev.2.2

/-- transaction_add_job_and_dependencies (timer.h lines 841-1062): the
load-state gate, the applicability gate, job creation, the inbound link (or
anchor designation), and, for new jobs, the recursive expansion over the
unit's dependency sets with the per-kind failure policy. -/
def transaction_add_job_and_dependencies (fuel : Nat) (s : State) (type : JobType)
    (unit : Nat) (by_ : Option Nat)
    (matters override conflicts ignore_requirements ignore_order : Bool) :
    Int × Option BusError × State :=
  match fuel with
  | 0 => (-EFUEL, none, s)
  | fuel + 1 =>
      let u := getUnit s unit
      if u.load_state ≠ UNIT_LOADED ∧ u.load_state ≠ UNIT_ERROR ∧
         u.load_state ≠ UNIT_MASKED then
        (-EINVAL, some BusError.LOAD_FAILED, s)
      else if type ≠ JOB_STOP ∧ u.load_state = UNIT_ERROR then
        (-EINVAL, some BusError.LOAD_FAILED, s)
      else if type ≠ JOB_STOP ∧ u.load_state = UNIT_MASKED then
        (-EINVAL, some BusError.MASKED, s)
      else if ¬ unit_job_is_applicable u type then
        (-EBADR, some BusError.JOB_TYPE_NOT_APPLICABLE, s)
      else
        let aoj := transaction_add_one_job s type unit override
        let ret := aoj.1
        let is_new := aoj.2.1
        let s1 := aoj.2.2
        let s2 := setJob s1 ret (fun x =>
          { x with ignore_order := x.ignore_order || ignore_order })
        let s3 :=
          match by_ with
          | some b => job_dependency_new s2 b ret matters conflicts
          | none => { s2 with anchor_job := some ret }
        if is_new && !ignore_requirements then
          let go := fun (t2 : JobType) (m2 o2 c2 : Bool) (s0 : State) (d : Nat) =>
            transaction_add_job_and_dependencies fuel s0 t2 d (some ret) m2 o2 c2
              false ignore_order
          seqDep (dep_loop (go type false override false) false u.following s3)
            (fun s4 =>
              seqDep
                (if type = JOB_START ∨ type = JOB_RELOAD_OR_START then
                  seqDep (dep_loop (go JOB_START true override false) true u.requires s4)
                    (fun s5 =>
                  seqDep (dep_loop (go JOB_START true override false) true u.bind_to s5)
                    (fun s6 =>
                  seqDep (dep_loop (go JOB_START (!override) override false) false
                      u.requires_overridable s6) (fun s7 =>
                  seqDep (dep_loop (go JOB_START false false false) false u.wants s7)
                    (fun s8 =>
                  seqDep (dep_loop (go JOB_VERIFY_ACTIVE true override false) true
                      u.requisite s8) (fun s9 =>
                  seqDep (dep_loop (go JOB_VERIFY_ACTIVE (!override) override false) false
                      u.requisite_overridable s9) (fun s10 =>
                  seqDep (dep_loop (go JOB_STOP true override true) true u.conflicts s10)
                    (fun s11 =>
                  dep_loop (go JOB_STOP false override false) false u.conflicted_by s11)))))))
                else (0, none, s4))
                (fun s12 =>
                  seqDep
                    (if type = JOB_STOP ∨ type = JOB_RESTART ∨ type = JOB_TRY_RESTART then
                      seqDep (dep_loop (go type true override false) true u.required_by s12)
                        (fun s13 =>
                      dep_loop (go type true override false) true u.bound_by s13)
                    else (0, none, s12))
                    (fun s14 =>
                      if type = JOB_RELOAD ∨ type = JOB_RELOAD_OR_START then
                        dep_loop (go JOB_RELOAD false override false) false
                          u.propagate_reload_to s14
                      else (0, none, s14))))
        else (0, none, s3)

/-! Derived predicates used by the statements. -/

/-- Pool well-formedness: job ids already allocated are below the counter,
so a freshly created job never shadows an existing record. -/
def poolWF (s : State) : Prop := ∀ p ∈ s.pool, p.1 < s.next_job_id

/-- The builder only ever adds jobs and flips ignore_order: records that
exist keep their identity, unit and type. -/
def poolPreserved (s t : State) : Prop :=
  ∀ i J, s.pool.lookup i = some J →
    ∃ J2, t.pool.lookup i = some J2 ∧ J2.unit = J.unit ∧ J2.type = J.type

/-- Under a well-formed pool, a builder step keeps well-formedness, the id
counter monotone, and every existing job's identity. -/
def poolStep (s t : State) : Prop :=
  poolWF s → poolWF t ∧ s.next_job_id ≤ t.next_job_id ∧ poolPreserved s t

/-- A unit has a transaction job of the given type in the pool. -/
def hasPoolJob (s : State) (unit : Nat) (t : JobType) : Prop :=
  ∃ i J, s.pool.lookup i = some J ∧ J.unit = unit ∧ J.type = t

/-! Small builders for concrete witness states. -/

def emptyState : State := ⟨[], [], [], [], none, [], [], 0, 0, [], [], []⟩

def mkU (i : Nat) : Unit := { defaultUnit with id := i, load_state := UNIT_LOADED }

def mkJ (i u : Nat) (t : JobType) : Job := { defaultJob with id := i, unit := u, type := t }

/-- Result values the expansion loops can produce: success, or a hard
failure that is never JOB_TYPE_NOT_APPLICABLE (-EBADR). -/
def okOrHard (r : Int) : Prop := r = 0 ∨ (r < 0 ∧ r ≠ -EBADR)

/-- Transaction-map well-formedness: every job on a per-unit list exists in
the pool and belongs to that unit. -/
def trWF (s : State) : Prop :=
  ∀ u l, s.tr_jobs.lookup u = some l → ∀ j ∈ l, ∃ J, s.pool.lookup j = some J ∧ J.unit = u

/-! Concrete states used by the witnesses and counterexamples. -/

def W9 : State :=
  { emptyState with units := [(1, { mkU 1 with load_state := UNIT_STUB })] }

def W5e : State :=
  { emptyState with units := [(1, { mkU 1 with load_state := UNIT_ERROR })] }

def W5m : State :=
  { emptyState with units := [(1, { mkU 1 with load_state := UNIT_MASKED })] }

def W5s : State :=
  { emptyState with
    units := [(1, { mkU 1 with load_state := UNIT_ERROR,
                               applicable_types := [JOB_STOP] })] }

def W6a : State := { emptyState with units := [(1, { mkU 1 with applicable_types := [] })] }

def W6b : State :=
  { emptyState with
    units := [(1, { mkU 1 with applicable_types := [JOB_START], requires := [2] }),
              (2, { mkU 2 with load_state := UNIT_STUB })] }

def W6c : State :=
  { emptyState with
    units := [(1, { mkU 1 with applicable_types := [JOB_START], requires := [2] }),
              (2, { mkU 2 with applicable_types := [] })] }

def W6d : State :=
  { emptyState with
    units := [(1, { mkU 1 with applicable_types := [JOB_START], wants := [2] }),
              (2, { mkU 2 with load_state := UNIT_STUB })] }

/-- The uninstalled jobs' ids of a job list (the keys the install phase of
transaction_apply inserts and its rollback removes). -/
def uninstIds (s : State) (js : List Nat) : List Nat :=
  (js.filter (fun j => !(getJob s j).installed)).map (fun j => (getJob s j).id)

/-- The deletion paths leave the pool, the unit registry and the live map
alone; every newly freed job id was uninstalled at entry. -/
def deleteSafe (s t : State) : Prop :=
  t.pool = s.pool ∧ t.units = s.units ∧ t.m_jobs = s.m_jobs ∧
  ∀ i ∈ t.freed, i ∈ s.freed ∨ (getJob s i).installed = false

def W1 : State :=
  { emptyState with
    units := [(1, mkU 1)],
    pool := [(11, mkJ 11 1 JOB_START)],
    tr_jobs := [(1, [11])], anchor_job := some 11,
    m_jobs := [(99, 99)] }

def W1i : State :=
  { emptyState with
    units := [(1, mkU 1), (2, mkU 2)],
    pool := [(11, mkJ 11 1 JOB_START),
             (21, { mkJ 21 2 JOB_STOP with installed := true })],
    tr_jobs := [(1, [11])], anchor_job := some 11,
    m_jobs := [(21, 21)] }

def W10 : State :=
  { emptyState with
    units := [(1, mkU 1)],
    pool := [(11, { mkJ 11 1 JOB_STOP with installed := true }), (12, mkJ 12 1 JOB_STOP)],
    tr_jobs := [(1, [11, 12])] }

/-- The first pair of jobs, in the scan order of
delete_one_unmergeable_job, whose types do not merge. -/
def firstUnmergPair (s : State) : List Nat → Option (Nat × Nat)
  | [] => none
  | a :: rest =>
      match rest.find? (fun k =>
          !job_type_is_mergeable (getJob s a).type (getJob s k).type) with
      | some k => some (a, k)
      | none => firstUnmergPair s rest

/-- A per-unit list whose type fold (the first loop of
transaction_merge_jobs) fails. -/
def entry_fold_fails (s : State) : List Nat → Prop
  | [] => False
  | j :: rest => merge_fold s (getJob s j).type rest = none

/-- No pair of this unit's jobs admits a drop: every unmergeable pair
matters to the anchor on both sides. -/
def noDroppablePair (s : State) (l : List Nat) : Prop :=
  ∀ a ∈ l, ∀ k ∈ l,
    job_type_is_mergeable (getJob s a).type (getJob s k).type = false →
    (getJob s a).matters_to_anchor = true ∧ (getJob s k).matters_to_anchor = true

def W3 : State :=
  { emptyState with
    units := [(1, mkU 1)],
    pool := [(11, mkJ 11 1 JOB_START), (12, mkJ 12 1 JOB_STOP)],
    tr_jobs := [(1, [11, 12])] }

def W3b : State :=
  { emptyState with
    units := [(1, mkU 1)],
    pool := [(11, { mkJ 11 1 JOB_START with matters_to_anchor := true }),
             (12, { mkJ 12 1 JOB_STOP with matters_to_anchor := true })],
    tr_jobs := [(1, [11, 12])] }

/-! ## Definitions for the cycle-breaker analysis (C2). -/

def cycle_droppable (s : State) (k : Nat) : Bool :=
  !(getJob s k).installed && !unit_matters_to_anchor s (getJob s k).unit k

def trLen (s : State) (u : Nat) : Nat := ((s.tr_jobs.lookup u).getD []).length

def trShrink (s t : State) : Prop :=
  ∀ u, List.Sublist ((t.tr_jobs.lookup u).getD []) ((s.tr_jobs.lookup u).getD [])

def W2 : State :=
  { emptyState with
    units := [(1, { mkU 1 with before := [2] }), (2, { mkU 2 with before := [1] })],
    pool := [(21, { mkJ 21 1 JOB_START with matters_to_anchor := true, generation := 7, marker := some 21 }), (22, { mkJ 22 2 JOB_START with generation := 7, marker := some 21 })],
    tr_jobs := [(1, [21]), (2, [22])], anchor_job := some 21 }

/-! ## Definitions for the ordering-flag, merge-pass and idempotent-start claims
(C7, C4, C8): counterexample states, the well-formedness conditions of the merge
pass, and the elaborated form of transaction_merge_and_delete_job. -/

def W7 (b1 b2 : Bool) : State :=
  { emptyState with
    units := [(1, { mkU 1 with before := [2] }), (2, { mkU 2 with before := [1] })],
    pool := [(31, { mkJ 31 1 JOB_START with matters_to_anchor := true, ignore_order := b1 }), (32, { mkJ 32 2 JOB_START with matters_to_anchor := true, ignore_order := b2 })],
    tr_jobs := [(1, [31]), (2, [32])], anchor_job := some 31 }

def W8 : State :=
  { emptyState with
    units := [(1, { mkU 1 with active_state := UNIT_ACTIVE })],
    pool := [(11, { mkJ 11 1 JOB_START with matters_to_anchor := true })],
    tr_jobs := [(1, [11])], anchor_job := some 11, next_job_id := 12 }

def liveJobsWF (s : State) : Prop :=
  ∀ u lj, (getUnit s u).job = some lj →
    (getJob s lj).installed = true ∧
    ∀ u2 l, s.tr_jobs.lookup u2 = some l → lj ∉ l

def trListsWF (s : State) : Prop :=
  ∀ u l, s.tr_jobs.lookup u = some l → l ≠ [] ∧ l.Nodup

def singletonOrGone (s : State) (u : Nat) : Prop :=
  s.tr_jobs.lookup u = none ∨ ∃ x, s.tr_jobs.lookup u = some [x]

def madMergeUpd (s : State) (other : Nat) (t : JobType) : Job → Job := fun x =>
  { x with type := t, state := JOB_WAITING,
           override := x.override || (getJob s other).override,
           matters_to_anchor := x.matters_to_anchor || (getJob s other).matters_to_anchor }

def madRepoint (j other : Nat) : (Nat × JobDependency) → (Nat × JobDependency) := fun p =>
  (p.1, { p.2 with subject := if p.2.subject = other then j else p.2.subject,
                   object := if p.2.object = other then j else p.2.object })

def madMid (s : State) (j other : Nat) (t : JobType) : State :=
  let s1 := setJob s j (madMergeUpd s other t)
  { s1 with links := s1.links.map (madRepoint j other) }

def madSpec (s : State) (j other : Nat) (t : JobType) : State :=
  let s3 : State := { tr_detach (madMid s j other t) other with
    links := (madMid s j other t).links.filter (fun p => p.2.subject ≠ other) }
  if (getJob s3 other).installed then s3 else job_free s3 other

def collapseRel (s r : State) (u : Nat) : Prop :=
  (∀ u', u' ≠ u → r.tr_jobs.lookup u' = s.tr_jobs.lookup u') ∧
  (∀ x, (getJob r x).unit = (getJob s x).unit ∧
        (getJob r x).installed = (getJob s x).installed) ∧
  (∀ x, (getJob s x).unit ≠ u → getJob r x = getJob s x) ∧
  r.units = s.units ∧
  trWF r ∧ trListsWF r ∧ liveJobsWF r

def W4 : State :=
  { emptyState with
    units := [(1, mkU 1)],
    pool := [(41, mkJ 41 1 JOB_START), (42, mkJ 42 1 JOB_VERIFY_ACTIVE)],
    tr_jobs := [(1, [41, 42])] }

/-! ## Lemmas about the association-list primitives. -/

theorem lookup_some_mem {α : Type} {l : List (Nat × α)} {i : Nat} {v : α}
    (h : l.lookup i = some v) : (i, v) ∈ l := by
  induction l with
  | nil => simp [List.lookup] at h
  | cons p rest ih =>
      rcases p with ⟨k, w⟩
      by_cases hk : i = k
      · subst hk
        simp [List.lookup] at h
        simp [h]
      · simp only [List.lookup] at h
        rw [beq_false_of_ne hk] at h
        right
        exact ih h

theorem lookup_cons_ne {α : Type} {k i : Nat} {w : α} {l : List (Nat × α)}
    (h : k ≠ i) : ((k, w) :: l).lookup i = l.lookup i := by
  have hik : i ≠ k := Ne.symm h
  simp only [List.lookup]
  rw [beq_false_of_ne hik]

theorem lookup_map_entry {α : Type} (g : α → α) (jid : Nat) :
    ∀ (l : List (Nat × α)) (i : Nat),
      (l.map (fun p => if p.1 = jid then (p.1, g p.2) else p)).lookup i =
        (l.lookup i).map (fun w => if i = jid then g w else w) := by
  intro l
  induction l with
  | nil => intro i; simp [List.lookup]
  | cons p rest ih =>
      rcases p with ⟨k, w⟩
      intro i
      simp only [List.map_cons]
      by_cases hj : k = jid
      · rw [if_pos (by simpa using hj)]
        by_cases hik : i = k
        · subst hik
          subst hj
          simp [List.lookup]
        · rw [lookup_cons_ne (Ne.symm hik), lookup_cons_ne (Ne.symm hik)]
          exact ih i
      · rw [if_neg (by simpa using hj)]
        by_cases hik : i = k
        · subst hik
          have hij : i ≠ jid := hj
          simp [List.lookup, hij]
        · rw [lookup_cons_ne (Ne.symm hik), lookup_cons_ne (Ne.symm hik)]
          exact ih i

/-! ## The builder only grows the pool (used for claims C5 and C6). -/

theorem poolStep_rfl (s : State) : poolStep s s :=
  fun h => ⟨h, le_refl _, fun _ J hl => ⟨J, hl, rfl, rfl⟩⟩

theorem poolStep_trans {s t u : State} (h1 : poolStep s t) (h2 : poolStep t u) :
    poolStep s u := by
  intro hw
  obtain ⟨hw1, hle1, hp1⟩ := h1 hw
  obtain ⟨hw2, hle2, hp2⟩ := h2 hw1
  refine ⟨hw2, le_trans hle1 hle2, fun i J hl => ?_⟩
  obtain ⟨J2, hl2, hu2, ht2⟩ := hp1 i J hl
  obtain ⟨J3, hl3, hu3, ht3⟩ := hp2 i J2 hl2
  exact ⟨J3, hl3, hu3.trans hu2, ht3.trans ht2⟩

theorem poolStep_add_one_job (s : State) (ty : JobType) (un : Nat) (o : Bool) :
    poolStep s (transaction_add_one_job s ty un o).2.2 := by
  unfold transaction_add_one_job
  cases hf : ((s.tr_jobs.lookup un).getD []).find? (fun j => (getJob s j).type == ty) with
  | some j => simpa [hf] using poolStep_rfl s
  | none =>
      simp only [hf]
      intro hw
      refine ⟨?_, by simp, ?_⟩
      · intro p hp
        simp at hp
        rcases hp with h | hp
        · simp [h]
        · exact Nat.lt_succ_of_lt (hw p hp)
      · intro i J hl
        have hmem := lookup_some_mem hl
        have hlt : i < s.next_job_id := hw (i, J) hmem
        refine ⟨J, ?_, rfl, rfl⟩
        simp only []
        rw [lookup_cons_ne (Nat.ne_of_gt hlt)]
        exact hl

theorem poolStep_setJob (s : State) (jid : Nat) (f : Job → Job)
    (hf : ∀ x, (f x).unit = x.unit ∧ (f x).type = x.type) :
    poolStep s (setJob s jid f) := by
  intro hw
  refine ⟨?_, le_refl _, ?_⟩
  · intro p hp
    simp only [setJob, List.mem_map] at hp
    obtain ⟨q, hq, hpq⟩ := hp
    have hfst : p.1 = q.1 := by
      rw [← hpq]
      by_cases h : q.1 = jid <;> simp [h]
    rw [hfst]
    exact hw q hq
  · intro i J hl
    refine ⟨if i = jid then f J else J, ?_, ?_, ?_⟩
    · simp only [setJob]
      rw [lookup_map_entry f jid s.pool i, hl]
      rfl
    · by_cases h : i = jid <;> simp [h, (hf J).1]
    · by_cases h : i = jid <;> simp [h, (hf J).2]

theorem poolStep_links (s : State) (ls : List (Nat × JobDependency)) (n : Nat) :
    poolStep s { s with links := ls, next_link_id := n } :=
  fun h => ⟨h, le_refl _, fun _ J hl => ⟨J, hl, rfl, rfl⟩⟩

theorem poolStep_anchor (s : State) (a : Option Nat) :
    poolStep s { s with anchor_job := a } :=
  fun h => ⟨h, le_refl _, fun _ J hl => ⟨J, hl, rfl, rfl⟩⟩

theorem dep_loop_poolStep (recurse : State → Nat → Int × Option BusError × State)
    (hrec : ∀ s d, poolStep s (recurse s d).2.2) (fm : Bool) :
    ∀ (l : List Nat) (s : State), poolStep s (dep_loop recurse fm l s).2.2 := by
  intro l
  induction l with
  | nil => intro s; exact poolStep_rfl s
  | cons d ds ih =>
      intro s
      have h1 : poolStep s (recurse s d).2.2 := hrec s d
      unfold dep_loop
      dsimp only
      split
      · split
        · exact h1
        · exact poolStep_trans h1 (ih _)
      · exact poolStep_trans h1 (ih _)

theorem seqDep_poolStep {s : State} {prev : Int × Option BusError × State}
    {next : State → Int × Option BusError × State}
    (h1 : poolStep s prev.2.2) (h2 : ∀ t, poolStep t (next t).2.2) :
    poolStep s (seqDep prev next).2.2 := by
  unfold seqDep
  split
  · exact h1
  · exact poolStep_trans h1 (h2 _)

theorem tadd_poolStep : ∀ (fuel : Nat) (s : State) (ty : JobType) (un : Nat)
    (by_ : Option Nat) (m o c ir io : Bool),
    poolStep s (transaction_add_job_and_dependencies fuel s ty un by_ m o c ir io).2.2 := by
  intro fuel
  induction fuel with
  | zero => intro s ty un by_ m o c ir io; exact poolStep_rfl s
  | succ fuel ih =>
      intro s ty un by_ m o c ir io
      unfold transaction_add_job_and_dependencies
      dsimp only
      split
      · exact poolStep_rfl s
      split
      · exact poolStep_rfl s
      split
      · exact poolStep_rfl s
      split
      · exact poolStep_rfl s
      have h1 : poolStep s (transaction_add_one_job s ty un o).2.2 :=
        poolStep_add_one_job s ty un o
      have h2 : poolStep s (setJob (transaction_add_one_job s ty un o).2.2
          (transaction_add_one_job s ty un o).1
          (fun x => { x with ignore_order := x.ignore_order || io })) :=
        poolStep_trans h1 (poolStep_setJob _ _ _ (fun x => ⟨rfl, rfl⟩))
      have h3 : ∀ s2 : State, poolStep s2
          (match by_ with
           | some b => job_dependency_new s2 b (transaction_add_one_job s ty un o).1 m c
           | none => { s2 with anchor_job := some (transaction_add_one_job s ty un o).1 }) := by
        intro s2
        cases by_ with
        | some b => exact poolStep_links s2 _ _
        | none => exact poolStep_anchor s2 _
      have hchain := poolStep_trans h2 (h3 _)
      split
      · refine seqDep_poolStep (poolStep_trans hchain ?_) (fun s4 => ?_)
        · exact dep_loop_poolStep _ (fun s0 d => ih s0 _ _ _ _ _ _ _ _) _ _ _
        · refine seqDep_poolStep ?_ (fun s12 => ?_)
          · split
            · refine seqDep_poolStep ?_ (fun s5 => ?_)
              · exact dep_loop_poolStep _ (fun s0 d => ih s0 _ _ _ _ _ _ _ _) _ _ _
              refine seqDep_poolStep ?_ (fun s6 => ?_)
              · exact dep_loop_poolStep _ (fun s0 d => ih s0 _ _ _ _ _ _ _ _) _ _ _
              refine seqDep_poolStep ?_ (fun s7 => ?_)
              · exact dep_loop_poolStep _ (fun s0 d => ih s0 _ _ _ _ _ _ _ _) _ _ _
              refine seqDep_poolStep ?_ (fun s8 => ?_)
              · exact dep_loop_poolStep _ (fun s0 d => ih s0 _ _ _ _ _ _ _ _) _ _ _
              refine seqDep_poolStep ?_ (fun s9 => ?_)
              · exact dep_loop_poolStep _ (fun s0 d => ih s0 _ _ _ _ _ _ _ _) _ _ _
              refine seqDep_poolStep ?_ (fun s10 => ?_)
              · exact dep_loop_poolStep _ (fun s0 d => ih s0 _ _ _ _ _ _ _ _) _ _ _
              refine seqDep_poolStep ?_ (fun s11 => ?_)
              · exact dep_loop_poolStep _ (fun s0 d => ih s0 _ _ _ _ _ _ _ _) _ _ _
              exact dep_loop_poolStep _ (fun s0 d => ih s0 _ _ _ _ _ _ _ _) _ _ _
            · exact poolStep_rfl _
          · refine seqDep_poolStep ?_ (fun s14 => ?_)
            · split
              · refine seqDep_poolStep ?_ (fun s13 => ?_)
                · exact dep_loop_poolStep _ (fun s0 d => ih s0 _ _ _ _ _ _ _ _) _ _ _
                · exact dep_loop_poolStep _ (fun s0 d => ih s0 _ _ _ _ _ _ _ _) _ _ _
              · exact poolStep_rfl _
            · split
              · exact dep_loop_poolStep _ (fun s0 d => ih s0 _ _ _ _ _ _ _ _) _ _ _
              · exact poolStep_rfl _
      · exact hchain

theorem hasPoolJob_mono {s t : State} (h : poolPreserved s t) {un : Nat} {ty : JobType}
    (hj : hasPoolJob s un ty) : hasPoolJob t un ty := by
  obtain ⟨i, J, hl, hu, ht⟩ := hj
  obtain ⟨J2, hl2, hu2, ht2⟩ := h i J hl
  exact ⟨i, J2, hl2, hu2.trans hu, ht2.trans ht⟩

theorem tadd_poolStep_after_gates (fuel : Nat) (s : State) (ty : JobType) (un : Nat)
    (by_ : Option Nat) (m o c ir io : Bool)
    (hg1 : ¬((getUnit s un).load_state ≠ UNIT_LOADED ∧ (getUnit s un).load_state ≠ UNIT_ERROR ∧
             (getUnit s un).load_state ≠ UNIT_MASKED))
    (hg2 : ¬(ty ≠ JOB_STOP ∧ (getUnit s un).load_state = UNIT_ERROR))
    (hg3 : ¬(ty ≠ JOB_STOP ∧ (getUnit s un).load_state = UNIT_MASKED))
    (hg4 : unit_job_is_applicable (getUnit s un) ty = true) :
    poolStep (transaction_add_one_job s ty un o).2.2
      (transaction_add_job_and_dependencies (fuel + 1) s ty un by_ m o c ir io).2.2 := by
  unfold transaction_add_job_and_dependencies
  dsimp only
  rw [if_neg hg1, if_neg hg2, if_neg hg3, if_neg (by simp [hg4])]
  have h2 : poolStep (transaction_add_one_job s ty un o).2.2
      (setJob (transaction_add_one_job s ty un o).2.2
        (transaction_add_one_job s ty un o).1
        (fun x => { x with ignore_order := x.ignore_order || io })) :=
    poolStep_setJob _ _ _ (fun x => ⟨rfl, rfl⟩)
  have h3 : ∀ s2 : State, poolStep s2
      (match by_ with
       | some b => job_dependency_new s2 b (transaction_add_one_job s ty un o).1 m c
       | none => { s2 with anchor_job := some (transaction_add_one_job s ty un o).1 }) := by
    intro s2
    cases by_ with
    | some b => exact poolStep_links s2 _ _
    | none => exact poolStep_anchor s2 _
  have hchain := poolStep_trans h2 (h3 _)
  split
  · refine seqDep_poolStep (poolStep_trans hchain ?_) (fun s4 => ?_)
    · exact dep_loop_poolStep _ (fun s0 d => tadd_poolStep fuel s0 _ _ _ _ _ _ _ _) _ _ _
    · refine seqDep_poolStep ?_ (fun s12 => ?_)
      · split
        · refine seqDep_poolStep ?_ (fun s5 => ?_)
          · exact dep_loop_poolStep _ (fun s0 d => tadd_poolStep fuel s0 _ _ _ _ _ _ _ _) _ _ _
          refine seqDep_poolStep ?_ (fun s6 => ?_)
          · exact dep_loop_poolStep _ (fun s0 d => tadd_poolStep fuel s0 _ _ _ _ _ _ _ _) _ _ _
          refine seqDep_poolStep ?_ (fun s7 => ?_)
          · exact dep_loop_poolStep _ (fun s0 d => tadd_poolStep fuel s0 _ _ _ _ _ _ _ _) _ _ _
          refine seqDep_poolStep ?_ (fun s8 => ?_)
          · exact dep_loop_poolStep _ (fun s0 d => tadd_poolStep fuel s0 _ _ _ _ _ _ _ _) _ _ _
          refine seqDep_poolStep ?_ (fun s9 => ?_)
          · exact dep_loop_poolStep _ (fun s0 d => tadd_poolStep fuel s0 _ _ _ _ _ _ _ _) _ _ _
          refine seqDep_poolStep ?_ (fun s10 => ?_)
          · exact dep_loop_poolStep _ (fun s0 d => tadd_poolStep fuel s0 _ _ _ _ _ _ _ _) _ _ _
          refine seqDep_poolStep ?_ (fun s11 => ?_)
          · exact dep_loop_poolStep _ (fun s0 d => tadd_poolStep fuel s0 _ _ _ _ _ _ _ _) _ _ _
          exact dep_loop_poolStep _ (fun s0 d => tadd_poolStep fuel s0 _ _ _ _ _ _ _ _) _ _ _
        · exact poolStep_rfl _
      · refine seqDep_poolStep ?_ (fun s14 => ?_)
        · split
          · refine seqDep_poolStep ?_ (fun s13 => ?_)
            · exact dep_loop_poolStep _ (fun s0 d => tadd_poolStep fuel s0 _ _ _ _ _ _ _ _) _ _ _
            · exact dep_loop_poolStep _ (fun s0 d => tadd_poolStep fuel s0 _ _ _ _ _ _ _ _) _ _ _
          · exact poolStep_rfl _
        · split
          · exact dep_loop_poolStep _ (fun s0 d => tadd_poolStep fuel s0 _ _ _ _ _ _ _ _) _ _ _
          · exact poolStep_rfl _
  · exact hchain

/-! ## Result values of the expansion loops (used for claim C6). -/

theorem dep_loop_okOrHard (recurse : State → Nat → Int × Option BusError × State)
    (fm : Bool) : ∀ (l : List Nat) (s : State), okOrHard (dep_loop recurse fm l s).1 := by
  intro l
  induction l with
  | nil => intro s; left; rfl
  | cons d ds ih =>
      intro s
      unfold dep_loop
      dsimp only
      split
      · split
        · rename_i h1 h2
          right
          refine ⟨h1, ?_⟩
          have := (Bool.and_eq_true _ _).mp h2
          simpa using this.2
        · exact ih _
      · exact ih _

theorem seqDep_okOrHard {prev : Int × Option BusError × State}
    {next : State → Int × Option BusError × State}
    (h1 : okOrHard prev.1) (h2 : ∀ t, okOrHard (next t).1) :
    okOrHard (seqDep prev next).1 := by
  unfold seqDep
  split
  · exact h1
  · exact h2 _

theorem okOrHard_ne {r : Int} (h : okOrHard r) : r ≠ -EBADR := by
  rcases h with h0 | ⟨_, hne⟩
  · rw [h0]; decide
  · exact hne

theorem tadd_ne_EBADR :
    ∀ (fuel : Nat) (s : State) (ty : JobType) (un : Nat) (by_ : Option Nat)
      (m o c ir io : Bool),
      unit_job_is_applicable (getUnit s un) ty = true →
      (transaction_add_job_and_dependencies fuel s ty un by_ m o c ir io).1 ≠ -EBADR := by
  intro fuel s ty un by_ m o c ir io happ
  cases fuel with
  | zero =>
      intro h
      have h0 : (transaction_add_job_and_dependencies 0 s ty un by_ m o c ir io).1 = -EFUEL :=
        rfl
      rw [h0] at h
      simp [EFUEL, EBADR] at h
  | succ fuel =>
      unfold transaction_add_job_and_dependencies
      dsimp only
      by_cases hg1 : ((getUnit s un).load_state ≠ UNIT_LOADED ∧
          (getUnit s un).load_state ≠ UNIT_ERROR ∧ (getUnit s un).load_state ≠ UNIT_MASKED)
      · rw [if_pos hg1]; intro h; simp [EINVAL, EBADR] at h
      rw [if_neg hg1]
      by_cases hg2 : (ty ≠ JOB_STOP ∧ (getUnit s un).load_state = UNIT_ERROR)
      · rw [if_pos hg2]; intro h; simp [EINVAL, EBADR] at h
      rw [if_neg hg2]
      by_cases hg3 : (ty ≠ JOB_STOP ∧ (getUnit s un).load_state = UNIT_MASKED)
      · rw [if_pos hg3]; intro h; simp [EINVAL, EBADR] at h
      rw [if_neg hg3]
      rw [if_neg (show ¬¬(unit_job_is_applicable (getUnit s un) ty = true) from
        fun hc => hc happ)]
      by_cases hbr : ((transaction_add_one_job s ty un o).2.1 && !ir) = true
      · rw [if_pos hbr]
        refine okOrHard_ne (seqDep_okOrHard (dep_loop_okOrHard _ _ _ _) (fun s4 => ?_))
        refine seqDep_okOrHard ?_ (fun s12 => ?_)
        · split
          · refine seqDep_okOrHard (dep_loop_okOrHard _ _ _ _) (fun s5 => ?_)
            refine seqDep_okOrHard (dep_loop_okOrHard _ _ _ _) (fun s6 => ?_)
            refine seqDep_okOrHard (dep_loop_okOrHard _ _ _ _) (fun s7 => ?_)
            refine seqDep_okOrHard (dep_loop_okOrHard _ _ _ _) (fun s8 => ?_)
            refine seqDep_okOrHard (dep_loop_okOrHard _ _ _ _) (fun s9 => ?_)
            refine seqDep_okOrHard (dep_loop_okOrHard _ _ _ _) (fun s10 => ?_)
            refine seqDep_okOrHard (dep_loop_okOrHard _ _ _ _) (fun s11 => ?_)
            exact dep_loop_okOrHard _ _ _ _
          · left; rfl
        · refine seqDep_okOrHard ?_ (fun s14 => ?_)
          · split
            · refine seqDep_okOrHard (dep_loop_okOrHard _ _ _ _) (fun s13 => ?_)
              exact dep_loop_okOrHard _ _ _ _
            · left; rfl
          · split
            · exact dep_loop_okOrHard _ _ _ _
            · left; rfl
      · rw [if_neg hbr]
        intro h
        simp [EBADR] at h

/-! ## Claim theorems. -/

/-- Claim C9: for every unit whose load state is none of LOADED, ERROR or
MASKED (a stub or not-found unit), transaction_add_job_and_dependencies
fails with LOAD_FAILED (-EINVAL) regardless of the requested job type,
including STOP, and the returned state is the input state: no job or link
has been created. -/
theorem C9_unloaded_unit_fails_load_failed (fuel : Nat) (s : State) (type : JobType)
    (unit : Nat) (by_ : Option Nat) (m o c ir io : Bool)
    (h1 : (getUnit s unit).load_state ≠ UNIT_LOADED)
    (h2 : (getUnit s unit).load_state ≠ UNIT_ERROR)
    (h3 : (getUnit s unit).load_state ≠ UNIT_MASKED) :
    transaction_add_job_and_dependencies (fuel + 1) s type unit by_ m o c ir io =
      (-EINVAL, some BusError.LOAD_FAILED, s) := by
  unfold transaction_add_job_and_dependencies
  dsimp only
  rw [if_pos ⟨h1, h2, h3⟩]

theorem C9_witness :
    ((getUnit W9 1).load_state ≠ UNIT_LOADED ∧
     (getUnit W9 1).load_state ≠ UNIT_ERROR ∧
     (getUnit W9 1).load_state ≠ UNIT_MASKED) ∧
    transaction_add_job_and_dependencies 1 W9 JOB_STOP 1 none true false false false false =
      (-EINVAL, some BusError.LOAD_FAILED, W9) :=
  ⟨⟨by decide, by decide, by decide⟩,
   C9_unloaded_unit_fails_load_failed 0 W9 JOB_STOP 1 none true false false false false
     (by decide) (by decide) (by decide)⟩

/-- Claim C5: the load-state gate of transaction_add_job_and_dependencies.
A non-STOP request on a unit whose load state is ERROR fails fast with
LOAD_FAILED, on a MASKED unit with MASKED, in both cases before creating any
job or link (the returned state is the input state); conversely a STOP
request on an ERROR or MASKED unit passes the gate: when STOP is applicable
to the unit, the call goes on to create (or find) a STOP job for the unit,
which is still present in the resulting state's pool. -/
theorem C5_load_state_gate :
    (∀ (fuel : Nat) (s : State) (ty : JobType) (un : Nat) (by_ : Option Nat)
       (m o c ir io : Bool),
       (getUnit s un).load_state = UNIT_ERROR → ty ≠ JOB_STOP →
       transaction_add_job_and_dependencies (fuel + 1) s ty un by_ m o c ir io =
         (-EINVAL, some BusError.LOAD_FAILED, s)) ∧
    (∀ (fuel : Nat) (s : State) (ty : JobType) (un : Nat) (by_ : Option Nat)
       (m o c ir io : Bool),
       (getUnit s un).load_state = UNIT_MASKED → ty ≠ JOB_STOP →
       transaction_add_job_and_dependencies (fuel + 1) s ty un by_ m o c ir io =
         (-EINVAL, some BusError.MASKED, s)) ∧
    (∀ (fuel : Nat) (s : State) (un : Nat) (by_ : Option Nat) (m o c ir io : Bool),
       poolWF s → trWF s →
       ((getUnit s un).load_state = UNIT_ERROR ∨ (getUnit s un).load_state = UNIT_MASKED) →
       unit_job_is_applicable (getUnit s un) JOB_STOP = true →
       hasPoolJob
         (transaction_add_job_and_dependencies (fuel + 1) s JOB_STOP un by_ m o c ir io).2.2
         un JOB_STOP) := by
  refine ⟨?_, ?_, ?_⟩
  · intro fuel s ty un by_ m o c ir io herr hty
    unfold transaction_add_job_and_dependencies
    dsimp only
    rw [if_neg (fun h => h.2.1 herr), if_pos ⟨hty, herr⟩]
  · intro fuel s ty un by_ m o c ir io hmask hty
    unfold transaction_add_job_and_dependencies
    dsimp only
    rw [if_neg (fun h => h.2.2 hmask),
        if_neg (fun h => by rw [hmask] at h; exact absurd h.2 (by decide)),
        if_pos ⟨hty, hmask⟩]
  · intro fuel s un by_ m o c ir io hw htr hload happ
    have hg1 : ¬((getUnit s un).load_state ≠ UNIT_LOADED ∧
        (getUnit s un).load_state ≠ UNIT_ERROR ∧
        (getUnit s un).load_state ≠ UNIT_MASKED) := by
      intro h
      rcases hload with hl | hl
      · exact h.2.1 hl
      · exact h.2.2 hl
    have hg2 : ¬(JOB_STOP ≠ JOB_STOP ∧ (getUnit s un).load_state = UNIT_ERROR) :=
      fun h => h.1 rfl
    have hg3 : ¬(JOB_STOP ≠ JOB_STOP ∧ (getUnit s un).load_state = UNIT_MASKED) :=
      fun h => h.1 rfl
    have hps := tadd_poolStep_after_gates fuel s JOB_STOP un by_ m o c ir io hg1 hg2 hg3 happ
    have hw1 : poolWF (transaction_add_one_job s JOB_STOP un o).2.2 :=
      (poolStep_add_one_job s JOB_STOP un o hw).1
    have hjob : hasPoolJob (transaction_add_one_job s JOB_STOP un o).2.2 un JOB_STOP := by
      unfold transaction_add_one_job
      cases hf : ((s.tr_jobs.lookup un).getD []).find?
          (fun j => (getJob s j).type == JOB_STOP) with
      | some j =>
          simp only [hf]
          have hmem : j ∈ (s.tr_jobs.lookup un).getD [] := List.mem_of_find?_eq_some hf
          have hty0 := List.find?_some hf
          have hty : ((getJob s j).type == JOB_STOP) = true := by simpa using hty0
          cases hlk : s.tr_jobs.lookup un with
          | none => rw [hlk] at hmem; simp at hmem
          | some l =>
              rw [hlk] at hmem
              simp at hmem
              obtain ⟨J, hpl, hunit⟩ := htr un l hlk j hmem
              refine ⟨j, J, hpl, hunit, ?_⟩
              have : getJob s j = J := by simp [getJob, hpl]
              rw [this] at hty
              simpa using hty
      | none =>
          simp only [hf]
          refine ⟨s.next_job_id,
            { id := s.next_job_id, unit := un, type := JOB_STOP, state := JOB_WAITING,
              installed := false, override := o, ignore_order := false,
              matters_to_anchor := false, generation := 0, marker := none }, ?_, rfl, rfl⟩
          simp [List.lookup]
    obtain ⟨_, _, hpres⟩ := hps hw1
    exact hasPoolJob_mono hpres hjob

theorem C5_witness :
    (transaction_add_job_and_dependencies 1 W5e JOB_START 1 none true false false false false =
       (-EINVAL, some BusError.LOAD_FAILED, W5e)) ∧
    (transaction_add_job_and_dependencies 1 W5m JOB_START 1 none true false false false false =
       (-EINVAL, some BusError.MASKED, W5m)) ∧
    hasPoolJob
      (transaction_add_job_and_dependencies 1 W5s JOB_STOP 1 none true false false
        false false).2.2 1 JOB_STOP :=
  ⟨C5_load_state_gate.1 0 W5e JOB_START 1 none true false false false false
     (by decide) (by decide),
   C5_load_state_gate.2.1 0 W5m JOB_START 1 none true false false false false
     (by decide) (by decide),
   C5_load_state_gate.2.2 0 W5s 1 none true false false false false
     (by intro p hp; exact absurd hp (by simp [W5s, emptyState]))
     (by intro u l h; simp [W5s, emptyState, List.lookup] at h)
     (Or.inl (by decide)) (by decide)⟩

/-- Claim C6: a recursive JOB_TYPE_NOT_APPLICABLE (-EBADR) never makes the
outer add fail: whenever the call returns -EBADR, it is the call's own unit
that failed the applicability gate, never a recursion (first conjunct).  On
a fail-on-error kind (here REQUIRES) a dependency whose recursive add fails
with a different error aborts the whole add with that error (second
conjunct: a stub dependency propagates LOAD_FAILED), while a dependency
failing with -EBADR is suppressed and the add succeeds (third conjunct);
on a log-and-continue kind (here WANTS) even a hard failure of the
dependency is suppressed (fourth conjunct). -/
theorem C6_not_applicable_suppressed :
    (∀ (fuel : Nat) (s : State) (ty : JobType) (un : Nat) (by_ : Option Nat)
       (m o c ir io : Bool),
       (transaction_add_job_and_dependencies fuel s ty un by_ m o c ir io).1 = -EBADR →
       unit_job_is_applicable (getUnit s un) ty = false) ∧
    ((transaction_add_job_and_dependencies 2 W6b JOB_START 1 none true false false
        false false).1 = -EINVAL ∧
     (transaction_add_job_and_dependencies 2 W6b JOB_START 1 none true false false
        false false).2.1 = some BusError.LOAD_FAILED) ∧
    ((transaction_add_job_and_dependencies 2 W6c JOB_START 1 none true false false
        false false).1 = 0) ∧
    ((transaction_add_job_and_dependencies 2 W6d JOB_START 1 none true false false
        false false).1 = 0) := by
  refine ⟨?_, ⟨by decide, by decide⟩, by decide, by decide⟩
  intro fuel s ty un by_ m o c ir io h
  by_cases happ : unit_job_is_applicable (getUnit s un) ty = true
  · exact absurd h (tadd_ne_EBADR fuel s ty un by_ m o c ir io happ)
  · exact Bool.eq_false_iff.mpr happ

theorem C6_witness :
    (transaction_add_job_and_dependencies 1 W6a JOB_START 1 none true false false
       false false).1 = -EBADR ∧
    unit_job_is_applicable (getUnit W6a 1) JOB_START = false :=
  ⟨by decide,
   C6_not_applicable_suppressed.1 1 W6a JOB_START 1 none true false false false false
     (by decide)⟩

theorem lookup_none_keys {α : Type} {l : List (Nat × α)} {k : Nat}
    (h : l.lookup k = none) : ∀ p ∈ l, p.1 ≠ k := by
  induction l with
  | nil => intro p hp; exact absurd hp (by simp)
  | cons q rest ih =>
      intro p hp
      rcases q with ⟨a, b⟩
      by_cases hak : k = a
      · subst hak
        simp [List.lookup] at h
      · simp only [List.lookup] at h
        rw [beq_false_of_ne hak] at h
        rcases List.mem_cons.mp hp with h1 | h1
        · rw [h1]; exact Ne.symm hak
        · exact ih h p h1

theorem hashmap_put_fresh {m : List (Nat × Nat)} {k v : Nat}
    (h : m.lookup k = none) : hashmap_put false m k v = (1, (k, v) :: m) := by
  simp [hashmap_put, h]

theorem hashmap_put_oom {m : List (Nat × Nat)} {k v : Nat}
    (h : m.lookup k = none) : hashmap_put true m k v = (-ENOMEM, m) := by
  simp [hashmap_put, h]

theorem hashmap_put_same {m : List (Nat × Nat)} {k v : Nat} {b : Bool}
    (h : m.lookup k = some v) : hashmap_put b m k v = (0, m) := by
  simp [hashmap_put, h]

theorem hashmap_put_clash {m : List (Nat × Nat)} {k v w : Nat} {b : Bool}
    (h : m.lookup k = some w) (hw : w ≠ v) : hashmap_put b m k v = (-EEXIST, m) := by
  simp [hashmap_put, h, hw]

theorem apply_rollback_filter (s : State) :
    ∀ (js : List Nat) (m : List (Nat × Nat)),
      apply_rollback s js m = m.filter (fun p => !(uninstIds s js).contains p.1) := by
  intro js
  induction js with
  | nil =>
      intro m
      simp [apply_rollback, uninstIds]
  | cons j js ih =>
      intro m
      by_cases hins : (getJob s j).installed
      · have huids : uninstIds s (j :: js) = uninstIds s js := by
          simp [uninstIds, hins]
        rw [huids]
        unfold apply_rollback
        rw [if_pos hins]
        exact ih m
      · have huids : uninstIds s (j :: js) = (getJob s j).id :: uninstIds s js := by
          simp [uninstIds, hins]
        rw [huids]
        unfold apply_rollback
        rw [if_neg hins]
        rw [ih (alist_remove m (getJob s j).id)]
        unfold alist_remove
        rw [List.filter_filter]
        apply List.filter_congr
        intro p _
        by_cases hid : p.1 = (getJob s j).id <;> simp [hid]

theorem apply_install_pushed (s : State) (oom : Nat → Bool) :
    ∀ (js : List Nat) (m : List (Nat × Nat)) (n : Nat),
      ∃ pushed : List (Nat × Nat),
        (apply_install s oom js m n).2 = pushed ++ m ∧
        ∀ k ∈ pushed, k.1 ∈ uninstIds s js := by
  intro js
  induction js with
  | nil => intro m n; exact ⟨[], rfl, by simp⟩
  | cons j js ih =>
      intro m n
      unfold apply_install
      by_cases hins : (getJob s j).installed
      · rw [if_pos hins]
        obtain ⟨pushed, hshape, hkeys⟩ := ih m n
        refine ⟨pushed, hshape, fun k hk => ?_⟩
        have hmem := hkeys k hk
        simp [uninstIds, hins] at hmem ⊢
        tauto
      · rw [if_neg hins]
        dsimp only
        cases hlk : m.lookup (getJob s j).id with
        | some w =>
            by_cases hw : w = j
            · subst hw
              rw [hashmap_put_same hlk]
              dsimp only
              rw [if_neg (by decide : ¬((0 : Int) < 0))]
              obtain ⟨pushed, hshape, hkeys⟩ := ih m (n + 1)
              refine ⟨pushed, hshape, fun k hk => ?_⟩
              have hmem := hkeys k hk
              simp [uninstIds, hins] at hmem ⊢
              tauto
            · rw [hashmap_put_clash hlk hw]
              dsimp only
              rw [if_pos (by norm_num [EEXIST] : (-EEXIST : Int) < 0)]
              exact ⟨[], rfl, by simp⟩
        | none =>
            cases hoom : oom n with
            | true =>
                rw [hashmap_put_oom hlk]
                dsimp only
                rw [if_pos (by norm_num [ENOMEM] : (-ENOMEM : Int) < 0)]
                exact ⟨[], rfl, by simp⟩
            | false =>
                rw [hashmap_put_fresh hlk]
                dsimp only
                rw [if_neg (by decide : ¬((1 : Int) < 0))]
                obtain ⟨pushed, hshape, hkeys⟩ := ih (((getJob s j).id, j) :: m) (n + 1)
                refine ⟨pushed ++ [((getJob s j).id, j)], ?_, ?_⟩
                · rw [hshape]; simp
                · intro k hk
                  rcases List.mem_append.mp hk with h1 | h1
                  · have hmem := hkeys k h1
                    simp [uninstIds, hins] at hmem ⊢
                    tauto
                  · simp at h1
                    rw [h1]
                    simp [uninstIds, hins]



/-- C1 (amended): outside isolate mode, if any insertion of a not-yet-installed
job fails during the install phase of transaction_apply, the rollback removes
every insertion this call performed and the whole returned state — in
particular the manager's live-job map, including the entries of previously
installed jobs — equals the state before the call.  The freshness hypothesis
reflects that job ids are newly assigned monotonic ids, so no uninstalled
transaction job is keyed in the live map beforehand.  The original claim's
universal quantification over modes is false: in isolate mode the pre-install
cancel sweep's removals of live jobs are not rolled back (C1_counterexample). -/
theorem C1_apply_rollback_restores_map (fuel : Nat) (s : State) (mode : JobMode)
    (oom : Nat → Bool)
    (hmode : mode ≠ JobMode.JOB_ISOLATE)
    (hfresh : ∀ j ∈ s.tr_jobs.filterMap (fun p => p.2.head?),
       (getJob s j).installed = false → s.m_jobs.lookup (getJob s j).id = none) :
    (transaction_apply fuel s mode oom).1 < 0 →
    (transaction_apply fuel s mode oom).2 = s := by
  unfold transaction_apply
  rw [if_neg hmode]
  dsimp only
  by_cases hr : (apply_install s oom (s.tr_jobs.filterMap (fun p => p.2.head?))
      s.m_jobs 0).1 < 0
  · rw [if_pos hr]
    intro _
    obtain ⟨pushed, hshape, hkeys⟩ :=
      apply_install_pushed s oom (s.tr_jobs.filterMap (fun p => p.2.head?)) s.m_jobs 0
    rw [apply_rollback_filter, hshape, List.filter_append]
    have hp1 : pushed.filter (fun p =>
        !(uninstIds s (s.tr_jobs.filterMap (fun p => p.2.head?))).contains p.1) = [] := by
      rw [List.filter_eq_nil_iff]
      intro a ha
      have := hkeys a ha
      simp [this]
    have hp2 : s.m_jobs.filter (fun p =>
        !(uninstIds s (s.tr_jobs.filterMap (fun p => p.2.head?))).contains p.1) =
          s.m_jobs := by
      rw [List.filter_eq_self]
      intro a ha
      simp only [Bool.not_eq_true']
      rw [Bool.eq_false_iff]
      intro hc
      have hc2 : a.1 ∈ uninstIds s (s.tr_jobs.filterMap (fun p => p.2.head?)) := by
        simpa using hc
      simp only [uninstIds, List.mem_map, List.mem_filter] at hc2
      obtain ⟨j, ⟨hjmem, hjuninst⟩, hjid⟩ := hc2
      have hnone := hfresh j hjmem (by simpa using hjuninst)
      rw [hjid] at hnone
      exact lookup_none_keys hnone a ha rfl
    rw [hp1, hp2]
    rfl
  · rw [if_neg hr]
    intro h
    simp at h



theorem C1_witness :
    (transaction_apply 5 W1 JobMode.JOB_FAIL (fun _ => true)).1 < 0 ∧
    (transaction_apply 5 W1 JobMode.JOB_FAIL (fun _ => true)).2 = W1 :=
  ⟨by decide,
   C1_apply_rollback_restores_map 5 W1 JobMode.JOB_FAIL (fun _ => true)
     (by decide) (by decide) (by decide)⟩

/-- C1 counterexample: in isolate mode the pre-install cancel sweep removes the
live job of a unit outside the transaction, and when the install phase then
fails the rollback does not restore it: the call leaves the manager's live-job
map empty where it held an entry before, even though the failing insertion was
of a not-yet-installed job whose id was fresh in the map. -/
theorem C1_counterexample :
    (transaction_apply 5 W1i JobMode.JOB_ISOLATE (fun _ => true)).1 < 0 ∧
    W1i.m_jobs.lookup (getJob W1i 11).id = none ∧
    W1i.m_jobs = [(21, 21)] ∧
    ((transaction_apply 5 W1i JobMode.JOB_ISOLATE (fun _ => true)).2).m_jobs = [] ∧
    (transaction_apply 5 W1i JobMode.JOB_ISOLATE (fun _ => true)).2 ≠ W1i := by
  decide

theorem deleteSafe_rfl (s : State) : deleteSafe s s :=
  ⟨rfl, rfl, rfl, fun _ hi => Or.inl hi⟩

theorem getJob_ext {s t : State} (h : t.pool = s.pool) : ∀ i, getJob t i = getJob s i := by
  intro i; simp [getJob, h]

theorem deleteSafe_trans {s t u : State} (h1 : deleteSafe s t) (h2 : deleteSafe t u) :
    deleteSafe s u := by
  obtain ⟨hp1, hu1, hm1, hf1⟩ := h1
  obtain ⟨hp2, hu2, hm2, hf2⟩ := h2
  refine ⟨hp2.trans hp1, hu2.trans hu1, hm2.trans hm1, fun i hi => ?_⟩
  rcases hf2 i hi with h | h
  · exact hf1 i h
  · right
    rw [getJob_ext hp1 i] at h
    exact h

theorem delete_safe_all : ∀ fuel : Nat,
    (∀ (s : State) (j : Nat) (dd : Bool),
       deleteSafe s (transaction_delete_job fuel s j dd)) ∧
    (∀ (s : State) (j : Nat) (dd : Bool),
       deleteSafe s (transaction_unlink_job fuel s j dd)) ∧
    (∀ (s : State) (j : Nat) (dd : Bool),
       deleteSafe s (unlink_object_loop fuel s j dd)) := by
  intro fuel
  induction fuel with
  | zero =>
      refine ⟨?_, ?_, ?_⟩ <;> (intro s j dd; exact deleteSafe_rfl s)
  | succ fuel ih =>
      obtain ⟨ihd, ihu, iho⟩ := ih
      have hdel : ∀ (s : State) (j : Nat) (dd : Bool),
          deleteSafe s (transaction_delete_job (fuel + 1) s j dd) := by
        intro s j dd
        unfold transaction_delete_job
        dsimp only
        have h1 := ihu s j dd
        split
        · exact h1
        · rename_i hni
          refine deleteSafe_trans h1 ⟨rfl, rfl, rfl, fun i hi => ?_⟩
          simp only [job_free, List.mem_cons] at hi
          rcases hi with h | h
          · subst h
            right
            simpa using hni
          · exact Or.inl h
      have hunl : ∀ (s : State) (j : Nat) (dd : Bool),
          deleteSafe s (transaction_unlink_job (fuel + 1) s j dd) := by
        intro s j dd
        unfold transaction_unlink_job
        dsimp only
        have hdetach : deleteSafe s (tr_detach s j) := by
          unfold tr_detach
          dsimp only
          split
          · exact deleteSafe_rfl s
          · split
            · exact ⟨rfl, rfl, rfl, fun _ hi => Or.inl hi⟩
            · exact ⟨rfl, rfl, rfl, fun _ hi => Or.inl hi⟩
        have hlinks : ∀ t : State, deleteSafe t
            { t with links := t.links.filter (fun p => p.2.subject ≠ j) } :=
          fun t => ⟨rfl, rfl, rfl, fun _ hi => Or.inl hi⟩
        exact deleteSafe_trans (deleteSafe_trans hdetach (hlinks _)) (iho _ j dd)
      refine ⟨hdel, hunl, ?_⟩
      intro s j dd
      unfold unlink_object_loop
      split
      · exact deleteSafe_rfl s
      · rename_i lid l hfind
        have hfree : deleteSafe s (job_dependency_free s lid) :=
          ⟨rfl, rfl, rfl, fun _ hi => Or.inl hi⟩
        dsimp only
        by_cases hm : l.matters = true
        · rw [if_pos hm]
          dsimp only
          by_cases hdd : dd = true
        
          · rw [if_pos hdd]
            exact deleteSafe_trans (deleteSafe_trans hfree (ihd _ _ dd)) (iho _ j dd)
          · rw [if_neg hdd]
            exact deleteSafe_trans hfree (iho _ j dd)
        · rw [if_neg hm]
          dsimp only
          exact deleteSafe_trans hfree (iho _ j dd)

theorem delete_unit_safe : ∀ (fuel : Nat) (s : State) (u : Nat),
    deleteSafe s (transaction_delete_unit fuel s u) := by
  intro fuel
  induction fuel with
  | zero => intro s u; exact deleteSafe_rfl s
  | succ fuel ih =>
      intro s u
      unfold transaction_delete_unit
      split
      · exact deleteSafe_trans ((delete_safe_all fuel).1 s _ true) (ih _ u)
      · exact deleteSafe_trans ⟨rfl, rfl, rfl, fun _ hi => Or.inl hi⟩ (ih _ u)
      · exact deleteSafe_rfl s

theorem abort_safe : ∀ (fuel : Nat) (s : State),
    deleteSafe s (transaction_abort fuel s) := by
  intro fuel
  induction fuel with
  | zero => intro s; exact deleteSafe_rfl s
  | succ fuel ih =>
      intro s
      unfold transaction_abort
      split
      · exact deleteSafe_rfl s
      · exact deleteSafe_trans ⟨rfl, rfl, rfl, fun _ hi => Or.inl hi⟩ (ih _)
      · exact deleteSafe_trans ((delete_safe_all fuel).1 s _ true) (ih _)

theorem drop_redundant_safe : ∀ (fuel : Nat) (s : State),
    deleteSafe s (transaction_drop_redundant fuel s) := by
  intro fuel
  induction fuel with
  | zero => intro s; exact deleteSafe_rfl s
  | succ fuel ih =>
      intro s
      unfold transaction_drop_redundant
      split
      · exact deleteSafe_rfl s
      · exact deleteSafe_trans ((delete_safe_all fuel).1 s _ false) (ih _)

theorem collect_garbage_safe : ∀ (fuel : Nat) (s : State),
    deleteSafe s (transaction_collect_garbage fuel s) := by
  intro fuel
  induction fuel with
  | zero => intro s; exact deleteSafe_rfl s
  | succ fuel ih =>
      intro s
      unfold transaction_collect_garbage
      split
      · exact deleteSafe_rfl s
      · exact deleteSafe_trans ((delete_safe_all fuel).1 s _ true) (ih _)

theorem minimize_impact_safe : ∀ (fuel : Nat) (s : State),
    deleteSafe s (transaction_minimize_impact fuel s) := by
  intro fuel
  induction fuel with
  | zero => intro s; exact deleteSafe_rfl s
  | succ fuel ih =>
      intro s
      unfold transaction_minimize_impact
      split
      · exact deleteSafe_rfl s
      · exact deleteSafe_trans ((delete_safe_all fuel).1 s _ true) (ih _)

theorem delete_one_unmergeable_safe (fuel : Nat) (s : State) (l : List Nat) :
    deleteSafe s (delete_one_unmergeable_job fuel s l).2 := by
  unfold delete_one_unmergeable_job
  split
  · exact (delete_safe_all fuel).1 s _ true
  · exact deleteSafe_rfl s
  · exact deleteSafe_rfl s

/-- Claim C10: every deletion path of the engine frees a job only when its
installed flag is false.  The conclusion deleteSafe states that the job pool
(and the unit registry and the manager's live map) is untouched, i.e. an
installed job encountered by deletion is only unlinked from the
transaction's bookkeeping (the per-unit list and the links, which live
outside the pool), and that every freshly freed job id was not installed. -/
theorem C10_deletion_frees_only_uninstalled :
    (∀ (fuel : Nat) (s : State) (j : Nat) (dd : Bool),
       deleteSafe s (transaction_delete_job fuel s j dd)) ∧
    (∀ (fuel : Nat) (s : State) (u : Nat),
       deleteSafe s (transaction_delete_unit fuel s u)) ∧
    (∀ (fuel : Nat) (s : State), deleteSafe s (transaction_abort fuel s)) ∧
    (∀ (fuel : Nat) (s : State), deleteSafe s (transaction_minimize_impact fuel s)) ∧
    (∀ (fuel : Nat) (s : State), deleteSafe s (transaction_drop_redundant fuel s)) ∧
    (∀ (fuel : Nat) (s : State), deleteSafe s (transaction_collect_garbage fuel s)) ∧
    (∀ (fuel : Nat) (s : State) (l : List Nat),
       deleteSafe s (delete_one_unmergeable_job fuel s l).2) :=
  ⟨fun fuel => (delete_safe_all fuel).1, delete_unit_safe, abort_safe,
   minimize_impact_safe, drop_redundant_safe, collect_garbage_safe,
   delete_one_unmergeable_safe⟩

theorem C10_witness :
    (12 ∈ (transaction_delete_job 5 W10 12 true).freed) ∧
    (12 ∈ W10.freed ∨ (getJob W10 12).installed = false) :=
  ⟨by decide,
   (C10_deletion_frees_only_uninstalled.1 5 W10 12 true).2.2.2 12 (by decide)⟩

theorem delete_one_inner_find (s : State) (a : Nat) :
    ∀ rest : List Nat,
      delete_one_inner s a rest =
        (rest.find? (fun k =>
          !job_type_is_mergeable (getJob s a).type (getJob s k).type)).map
          (fun k => unmergeable_pick s a k) := by
  intro rest
  induction rest with
  | nil => rfl
  | cons k ks ih =>
      unfold delete_one_inner
      by_cases hm : job_type_is_mergeable (getJob s a).type (getJob s k).type = true
      · rw [if_pos hm]
        rw [List.find?_cons_of_neg _ (by simp [hm])]
        exact ih
      · rw [if_neg hm]
        rw [List.find?_cons_of_pos _ (by simp [Bool.eq_false_iff.mpr hm])]
        rfl

theorem delete_one_outer_first (s : State) :
    ∀ l : List Nat,
      delete_one_outer s l =
        (firstUnmergPair s l).map (fun p => unmergeable_pick s p.1 p.2) := by
  intro l
  induction l with
  | nil => rfl
  | cons a rest ih =>
      unfold delete_one_outer firstUnmergPair
      rw [delete_one_inner_find]
      cases hf : rest.find? (fun k =>
          !job_type_is_mergeable (getJob s a).type (getJob s k).type) with
      | some k => simp [hf]
      | none => simp [hf, ih]

theorem firstUnmergPair_mem (s : State) :
    ∀ (l : List Nat) (a k : Nat),
      firstUnmergPair s l = some (a, k) →
      a ∈ l ∧ k ∈ l ∧
        job_type_is_mergeable (getJob s a).type (getJob s k).type = false := by
  intro l
  induction l with
  | nil => intro a k h; simp [firstUnmergPair] at h
  | cons b rest ih =>
      intro a k h
      unfold firstUnmergPair at h
      cases hf : rest.find? (fun k =>
          !job_type_is_mergeable (getJob s b).type (getJob s k).type) with
      | some k2 =>
          rw [hf] at h
          simp at h
          obtain ⟨ha, hk⟩ := h
          subst ha
          subst hk
          have hmem := List.mem_of_find?_eq_some hf
          have hp0 := List.find?_some hf
          refine ⟨List.mem_cons_self _ _, List.mem_cons_of_mem _ hmem, ?_⟩
          simpa using hp0
      | none =>
          rw [hf] at h
          obtain ⟨ha, hk, hm⟩ := ih a k h
          exact ⟨List.mem_cons_of_mem _ ha, List.mem_cons_of_mem _ hk, hm⟩



theorem merge_check_one_noDroppable (fuel : Nat) (s : State) (l : List Nat)
    (hnd : noDroppablePair s l) :
    merge_check_one fuel s l = none ∨
      ∃ r : Int, merge_check_one fuel s l =
          some (r, some BusError.TRANSACTION_JOBS_CONFLICTING, s) ∧ r < 0 := by
  cases l with
  | nil => left; rfl
  | cons j rest =>
      unfold merge_check_one
      dsimp only
      by_cases hfold : (merge_fold s (getJob s j).type rest).isSome = true
      · left; rw [if_pos hfold]
      · right
        rw [if_neg hfold]
        unfold delete_one_unmergeable_job
        rw [delete_one_outer_first]
        cases hfp : firstUnmergPair s (j :: rest) with
        | some p =>
            rcases p with ⟨a, k⟩
            obtain ⟨ha, hk, hm⟩ := firstUnmergPair_mem s (j :: rest) a k hfp
            obtain ⟨hma, hmk⟩ := hnd a ha k hk hm
            have hpick : unmergeable_pick s a k = none := by
              unfold unmergeable_pick
              rw [if_neg (by simp [hma]), if_neg (by simp [hma]), if_neg (by simp [hmk])]
            rw [Option.map_some', hpick]
            dsimp only
            refine ⟨-ENOEXEC, ?_, by norm_num [ENOEXEC]⟩
            rw [if_neg (by norm_num [ENOEXEC])]
        | none =>
            rw [Option.map_none']
            dsimp only
            refine ⟨-EINVAL, ?_, by norm_num [EINVAL]⟩
            rw [if_neg (by norm_num [EINVAL])]

theorem merge_step1_conflicting (fuel : Nat) (s : State) :
    ∀ es : List (Nat × List Nat),
      (∀ p ∈ es, noDroppablePair s p.2) →
      (∃ p ∈ es, entry_fold_fails s p.2) →
      ∃ r : Int, merge_step1 fuel s es =
          some (r, some BusError.TRANSACTION_JOBS_CONFLICTING, s) ∧ r < 0 := by
  intro es
  induction es with
  | nil => intro _ hex; simp at hex
  | cons p rest ih =>
      intro hall hex
      unfold merge_step1
      rcases merge_check_one_noDroppable fuel s p.2 (hall p (List.mem_cons_self _ _)) with
        hnone | ⟨r, hsome, hr⟩
      · rw [hnone]
        dsimp only
        apply ih (fun q hq => hall q (List.mem_cons_of_mem _ hq))
        rcases hex with ⟨q, hq, hfail⟩
        rcases List.mem_cons.mp hq with h1 | h1
        · exfalso
          rw [h1] at hfail
          cases hl : p.2 with
          | nil =>
              rw [hl] at hfail
              simp only [entry_fold_fails] at hfail
          | cons j rest2 =>
              rw [hl] at hfail
              simp only [entry_fold_fails] at hfail
              rw [hl] at hnone
              unfold merge_check_one at hnone
              dsimp only at hnone
              rw [if_neg (by simp [hfail])] at hnone
              split at hnone
              · exact Option.noConfusion hnone
              · exact Option.noConfusion hnone
        · exact ⟨q, h1, hfail⟩
      · rw [hsome]
        exact ⟨r, rfl, hr⟩



/-- Claim C3: the conflict-resolution substep of the merge pass.  First
conjunct: when the scan of delete_one_unmergeable_job finds its first
unmergeable pair (a, k) and neither job matters to the anchor (and neither
is installed), one of them is dropped (return 0 and the job deleted) with the
priority keep-starts-over-stops, except that a STOP pulled in through a
conflicts link makes the opposing job the victim.  Second conjunct: when no
pair of same-unit jobs admits a drop (each unmergeable pair matters on both
sides) and some unit's type fold fails, transaction_merge_jobs fails and
sets TRANSACTION_JOBS_CONFLICTING. -/
theorem C3_merge_conflict_resolution :
    (∀ (fuel : Nat) (s : State) (l : List Nat) (a k : Nat),
       firstUnmergPair s l = some (a, k) →
       (getJob s a).matters_to_anchor = false →
       (getJob s k).matters_to_anchor = false →
       (getJob s a).installed = false →
       (getJob s k).installed = false →
       ∃ d, delete_one_unmergeable_job fuel s l = (0, transaction_delete_job fuel s d true) ∧
         ((getJob s a).type = JOB_STOP → job_is_conflicted_by s a = false → d = a) ∧
         ((getJob s a).type = JOB_STOP → job_is_conflicted_by s a = true → d = k) ∧
         ((getJob s a).type ≠ JOB_STOP → (getJob s k).type = JOB_STOP →
            job_is_conflicted_by s k = false → d = k) ∧
         ((getJob s a).type ≠ JOB_STOP → (getJob s k).type = JOB_STOP →
            job_is_conflicted_by s k = true → d = a) ∧
         ((getJob s a).type ≠ JOB_STOP → (getJob s k).type ≠ JOB_STOP → d = a)) ∧
    (∀ (fuel : Nat) (s : State),
       (∀ p ∈ s.tr_jobs, noDroppablePair s p.2) →
       (∃ p ∈ s.tr_jobs, entry_fold_fails s p.2) →
       (transaction_merge_jobs fuel s).1 < 0 ∧
       (transaction_merge_jobs fuel s).2.1 = some BusError.TRANSACTION_JOBS_CONFLICTING) := by
  constructor
  · intro fuel s l a k hfp hma hmk _ _
    have hcond : (!(getJob s a).matters_to_anchor && !(getJob s k).matters_to_anchor) = true := by
      simp [hma, hmk]
    refine ⟨if (getJob s a).type = JOB_STOP then
              (if job_is_conflicted_by s a then k else a)
            else if (getJob s k).type = JOB_STOP then
              (if job_is_conflicted_by s k then a else k)
            else a, ?_, ?_, ?_, ?_, ?_, ?_⟩
    · unfold delete_one_unmergeable_job
      rw [delete_one_outer_first, hfp, Option.map_some']
      unfold unmergeable_pick
      rw [if_pos hcond]
    · intro h1 h2; simp [h1, h2]
    · intro h1 h2; simp [h1, h2]
    · intro h1 h2 h3; simp [h1, h2, h3]
    · intro h1 h2 h3; simp [h1, h2, h3]
    · intro h1 h2; simp [h1, h2]
  · intro fuel s hall hex
    obtain ⟨r, hstep, hr⟩ := merge_step1_conflicting fuel s s.tr_jobs hall hex
    unfold transaction_merge_jobs
    rw [hstep]
    exact ⟨hr, rfl⟩

theorem C3_witness :
    (∃ d, delete_one_unmergeable_job 5 W3 [11, 12] =
            (0, transaction_delete_job 5 W3 d true) ∧
       ((getJob W3 11).type = JOB_STOP → job_is_conflicted_by W3 11 = false → d = 11) ∧
       ((getJob W3 11).type = JOB_STOP → job_is_conflicted_by W3 11 = true → d = 12) ∧
       ((getJob W3 11).type ≠ JOB_STOP → (getJob W3 12).type = JOB_STOP →
          job_is_conflicted_by W3 12 = false → d = 12) ∧
       ((getJob W3 11).type ≠ JOB_STOP → (getJob W3 12).type = JOB_STOP →
          job_is_conflicted_by W3 12 = true → d = 11) ∧
       ((getJob W3 11).type ≠ JOB_STOP → (getJob W3 12).type ≠ JOB_STOP → d = 11)) ∧
    ((transaction_merge_jobs 5 W3b).1 < 0 ∧
     (transaction_merge_jobs 5 W3b).2.1 = some BusError.TRANSACTION_JOBS_CONFLICTING) :=
  ⟨C3_merge_conflict_resolution.1 5 W3 [11, 12] 11 12 (by decide) (by decide) (by decide)
     (by decide) (by decide),
   C3_merge_conflict_resolution.2 5 W3b
     (by
       intro p hp
       simp only [W3b, List.mem_singleton] at hp
       subst hp
       intro a ha k hk
       simp at ha hk
       rcases ha with ha | ha <;> rcases hk with hk | hk <;>
         subst ha <;> subst hk <;> decide)
     ⟨(1, [11, 12]), by decide,
      (by decide : merge_fold W3b (getJob W3b 11).type [12] = none)⟩⟩


/-! ## Cycle-breaker lemmas and claim C2. -/

theorem cycle_walk_keeps (s : State) (gen j : Nat) :
    ∀ (fuel : Nat) (k : Option Nat) (d : Nat),
      cycle_walk s gen j fuel k (some d) = some d := by
  intro fuel
  induction fuel with
  | zero => intro k d; cases k <;> rfl
  | succ fuel ih =>
      intro k d
      cases k with
      | none => rfl
      | some k0 =>
          unfold cycle_walk
          dsimp only
          split
          · rfl
          · exact ih _ d

theorem cycle_walk_eq_find (s : State) (gen j : Nat) :
    ∀ (fuel : Nat) (k : Option Nat),
      cycle_walk s gen j fuel k none =
        (cycle_path s gen j fuel k).find? (fun k0 => cycle_droppable s k0) := by
  intro fuel
  induction fuel with
  | zero => intro k; cases k <;> rfl
  | succ fuel ih =>
      intro k
      cases k with
      | none => rfl
      | some k0 =>
          unfold cycle_walk cycle_path
          dsimp only
          by_cases helig : cycle_droppable s k0 = true
          · have he2 : (!(getJob s k0).installed &&
                !unit_matters_to_anchor s (getJob s k0).unit k0) = true := helig
            rw [if_pos he2]
            by_cases hkj : k0 = j
            · rw [if_pos hkj, if_pos hkj]
              rw [List.find?_cons_of_pos _ helig]
            · rw [if_neg hkj, if_neg hkj]
              rw [List.find?_cons_of_pos _ helig]
              exact cycle_walk_keeps s gen j fuel _ k0
          · have he2 : (!(getJob s k0).installed &&
                !unit_matters_to_anchor s (getJob s k0).unit k0) = false :=
              Bool.eq_false_iff.mpr helig
            rw [he2, if_neg (by decide : ¬(false = true))]
            by_cases hkj : k0 = j
            · rw [if_pos hkj, if_pos hkj]
              rw [List.find?_cons_of_neg _ (by simp [helig])]
              rfl
            · rw [if_neg hkj, if_neg hkj]
              rw [List.find?_cons_of_neg _ (by simp [helig])]
              exact ih _

theorem alist_remove_lookup_self {α : Type} (m : List (Nat × α)) (k : Nat) :
    (alist_remove m k).lookup k = none := by
  induction m with
  | nil => rfl
  | cons p rest ih =>
      unfold alist_remove at ih ⊢
      by_cases hp : p.1 = k
      · simpa [hp] using ih
      · rcases p with ⟨a, b⟩
        simp only [List.filter_cons]
        rw [if_pos (by simpa using hp)]
        rw [lookup_cons_ne hp]
        exact ih

theorem alist_remove_lookup_ne {α : Type} (m : List (Nat × α)) (k u : Nat)
    (h : u ≠ k) : (alist_remove m k).lookup u = m.lookup u := by
  induction m with
  | nil => rfl
  | cons p rest ih =>
      rcases p with ⟨a, b⟩
      unfold alist_remove at ih ⊢
      simp only [List.filter_cons]
      by_cases ha : a = k
      · rw [if_neg (by simpa using ha)]
        rw [lookup_cons_ne (by rw [ha]; exact Ne.symm h)]
        exact ih
      · rw [if_pos (by simpa using ha)]
        by_cases hau : a = u
        · subst hau
          simp [List.lookup]
        · rw [lookup_cons_ne hau, lookup_cons_ne hau]
          exact ih

theorem alist_set_map_eq {α : Type} (m : List (Nat × α)) (k : Nat) (v : α) :
    m.map (fun p => if p.1 = k then (k, v) else p) =
      m.map (fun p => if p.1 = k then (p.1, (fun _ => v) p.2) else p) := by
  apply List.map_congr_left
  intro x _
  by_cases h : x.1 = k <;> simp [h]

theorem alist_set_lookup_self {α : Type} (m : List (Nat × α)) (k : Nat) (v : α) :
    (alist_set m k v).lookup k = some v := by
  unfold alist_set
  split
  · rename_i hsome
    rw [alist_set_map_eq, lookup_map_entry (fun _ => v) k m k]
    cases hv : m.lookup k with
    | none => rw [hv] at hsome; simp at hsome
    | some w => simp
  · simp [List.lookup]

theorem alist_set_lookup_ne {α : Type} (m : List (Nat × α)) (k u : Nat) (v : α)
    (h : u ≠ k) : (alist_set m k v).lookup u = m.lookup u := by
  unfold alist_set
  split
  · rw [alist_set_map_eq, lookup_map_entry (fun _ => v) k m u]
    cases hv : m.lookup u with
    | none => simp
    | some w => simp [h]
  · rw [lookup_cons_ne (Ne.symm h)]

theorem trShrink_rfl (s : State) : trShrink s s := fun _ => List.Sublist.refl _

theorem trShrink_of_eq {s t : State} (h : t.tr_jobs = s.tr_jobs) : trShrink s t := by
  intro u
  rw [h]

theorem trShrink_trans {s t u : State} (h1 : trShrink s t) (h2 : trShrink t u) :
    trShrink s u := fun x => (h2 x).trans (h1 x)

theorem tr_detach_shrink (s : State) (j : Nat) : trShrink s (tr_detach s j) := by
  intro u
  unfold tr_detach
  dsimp only
  cases hl : s.tr_jobs.lookup ((getJob s j).unit) with
  | none => exact List.Sublist.refl _
  | some l =>
      dsimp only
      split
      · by_cases hu : u = (getJob s j).unit
        · subst hu
          simp [alist_remove_lookup_self]
        · simp [alist_remove_lookup_ne _ _ _ hu]
      · by_cases hu : u = (getJob s j).unit
        · subst hu
          rw [alist_set_lookup_self, hl]
          simpa using List.erase_sublist j l
        · simp [alist_set_lookup_ne _ _ _ _ hu]

theorem delete_shrink_all : ∀ fuel : Nat,
    (∀ (s : State) (j : Nat) (dd : Bool),
       trShrink s (transaction_delete_job fuel s j dd)) ∧
    (∀ (s : State) (j : Nat) (dd : Bool),
       trShrink s (transaction_unlink_job fuel s j dd)) ∧
    (∀ (s : State) (j : Nat) (dd : Bool),
       trShrink s (unlink_object_loop fuel s j dd)) := by
  intro fuel
  induction fuel with
  | zero => refine ⟨?_, ?_, ?_⟩ <;> (intro s j dd; exact trShrink_rfl s)
  | succ fuel ih =>
      obtain ⟨ihd, ihu, iho⟩ := ih
      have hdel : ∀ (s : State) (j : Nat) (dd : Bool),
          trShrink s (transaction_delete_job (fuel + 1) s j dd) := by
        intro s j dd
        unfold transaction_delete_job
        dsimp only
        split
        · exact ihu s j dd
        · exact trShrink_trans (ihu s j dd) (trShrink_of_eq rfl)
      have hunl : ∀ (s : State) (j : Nat) (dd : Bool),
          trShrink s (transaction_unlink_job (fuel + 1) s j dd) := by
        intro s j dd
        unfold transaction_unlink_job
        dsimp only
        refine trShrink_trans (tr_detach_shrink s j)
          (trShrink_trans (trShrink_of_eq rfl) (iho _ j dd))
      refine ⟨hdel, hunl, ?_⟩
      intro s j dd
      unfold unlink_object_loop
      split
      · exact trShrink_rfl s
      · rename_i lid l hfind
        dsimp only
        have hfree : trShrink s (job_dependency_free s lid) := trShrink_of_eq rfl
        by_cases hm : l.matters = true
        · rw [if_pos hm]
          dsimp only
          by_cases hdd : dd = true
          · rw [if_pos hdd]
            exact trShrink_trans hfree
              (trShrink_trans (ihd _ l.subject dd) (iho _ j dd))
          · rw [if_neg hdd]
            exact trShrink_trans hfree (iho _ j dd)
        · rw [if_neg hm]
          dsimp only
          exact trShrink_trans hfree (iho _ j dd)

theorem trWF_shrink {s t : State} (hwf : trWF s) (hsh : trShrink s t)
    (hpool : t.pool = s.pool) : trWF t := by
  intro u l hl j hj
  have hsub := hsh u
  rw [hl] at hsub
  simp only [Option.getD_some] at hsub
  have hjs : j ∈ (s.tr_jobs.lookup u).getD [] := hsub.subset hj
  cases hl0 : s.tr_jobs.lookup u with
  | none => rw [hl0] at hjs; simp at hjs
  | some l0 =>
      rw [hl0] at hjs
      simp only [Option.getD_some] at hjs
      obtain ⟨J, hpl, hun⟩ := hwf u l0 hl0 j hjs
      exact ⟨J, by rw [hpool]; exact hpl, hun⟩

theorem trShrink_remove (s : State) (u : Nat) :
    trShrink s { s with tr_jobs := alist_remove s.tr_jobs u } := by
  intro u0
  by_cases hu : u0 = u
  · subst hu
    simp [alist_remove_lookup_self]
  · simp [alist_remove_lookup_ne _ _ _ hu]

theorem delete_unit_shrink : ∀ (fuel : Nat) (s : State) (u : Nat),
    trShrink s (transaction_delete_unit fuel s u) := by
  intro fuel
  induction fuel with
  | zero => intro s u; exact trShrink_rfl s
  | succ fuel ih =>
      intro s u
      unfold transaction_delete_unit
      split
      · exact trShrink_trans ((delete_shrink_all fuel).1 s _ true) (ih _ u)
      · exact trShrink_trans (trShrink_remove s u) (ih _ u)
      · exact trShrink_rfl s

theorem unlink_head_sub (fuel : Nat) (s : State) (j : Nat) (dd : Bool) (l : List Nat)
    (hl : s.tr_jobs.lookup ((getJob s j).unit) = some l) :
    List.Sublist
      (((transaction_unlink_job (fuel + 1) s j dd).tr_jobs.lookup
        ((getJob s j).unit)).getD [])
      (l.erase j) := by
  have hdetach : ((tr_detach s j).tr_jobs.lookup ((getJob s j).unit)).getD [] = l.erase j ∨
      ((tr_detach s j).tr_jobs.lookup ((getJob s j).unit)).getD [] = [] := by
    unfold tr_detach
    dsimp only
    rw [hl]
    dsimp only
    split
    · right
      simp [alist_remove_lookup_self]
    · left
      rw [alist_set_lookup_self]
      rfl
  have hloop : List.Sublist
      (((transaction_unlink_job (fuel + 1) s j dd).tr_jobs.lookup
        ((getJob s j).unit)).getD [])
      (((tr_detach s j).tr_jobs.lookup ((getJob s j).unit)).getD []) :=
    (delete_shrink_all fuel).2.2 _ j dd ((getJob s j).unit)
  rcases hdetach with h | h
  · rw [h] at hloop
    exact hloop
  · rw [h] at hloop
    exact hloop.trans (by simp)

theorem delete_head_sub (fuel : Nat) (s : State) (j : Nat) (dd : Bool) (l : List Nat)
    (hl : s.tr_jobs.lookup ((getJob s j).unit) = some l) :
    List.Sublist
      (((transaction_delete_job (fuel + 2) s j dd).tr_jobs.lookup
        ((getJob s j).unit)).getD [])
      (l.erase j) := by
  unfold transaction_delete_job
  dsimp only
  have hsub := unlink_head_sub fuel s j dd l hl
  split
  · exact hsub
  · exact hsub

theorem delete_unit_absent (fuel : Nat) (s : State) (u : Nat)
    (h : s.tr_jobs.lookup u = none) : transaction_delete_unit fuel s u = s := by
  cases fuel with
  | zero => rfl
  | succ fuel =>
      unfold transaction_delete_unit
      rw [h]

theorem delete_unit_gone : ∀ (n fuel : Nat) (s : State) (u : Nat),
    trWF s → trLen s u ≤ n → n + 2 ≤ fuel →
    (transaction_delete_unit fuel s u).tr_jobs.lookup u = none := by
  intro n
  induction n with
  | zero =>
      intro fuel s u hwf hlen hfuel
      obtain ⟨f, rfl⟩ : ∃ f, fuel = f + 1 := ⟨fuel - 1, by omega⟩
      unfold transaction_delete_unit
      cases hl : s.tr_jobs.lookup u with
      | none => exact hl
      | some l =>
          cases l with
          | nil =>
              dsimp only
              rw [delete_unit_absent f _ u (alist_remove_lookup_self _ _)]
              exact alist_remove_lookup_self _ _
          | cons j t =>
              exfalso
              unfold trLen at hlen
              rw [hl] at hlen
              simp at hlen
  | succ n ih =>
      intro fuel s u hwf hlen hfuel
      obtain ⟨f, rfl⟩ : ∃ f, fuel = f + 1 := ⟨fuel - 1, by omega⟩
      unfold transaction_delete_unit
      cases hl : s.tr_jobs.lookup u with
      | none => exact hl
      | some l =>
          cases l with
          | nil =>
              dsimp only
              rw [delete_unit_absent f _ u (alist_remove_lookup_self _ _)]
              exact alist_remove_lookup_self _ _
          | cons j t =>
              dsimp only
              obtain ⟨J, hpl, hun⟩ := hwf u (j :: t) hl j (List.mem_cons_self _ _)
              have hju : (getJob s j).unit = u := by
                simp [getJob, hpl]
                exact hun
              obtain ⟨f2, rfl⟩ : ∃ f2, f = f2 + 2 := ⟨f - 2, by omega⟩
              have hsub := delete_head_sub f2 s j true (j :: t) (by rw [hju]; exact hl)
              rw [hju] at hsub
              rw [List.erase_cons_head] at hsub
              set s2 := transaction_delete_job (f2 + 2) s j true with hs2
              have hwf2 : trWF s2 :=
                trWF_shrink hwf ((delete_shrink_all (f2 + 2)).1 s j true)
                  ((delete_safe_all (f2 + 2)).1 s j true).1
              have hlen2 : trLen s2 u ≤ n := by
                unfold trLen
                calc ((s2.tr_jobs.lookup u).getD []).length ≤ t.length :=
                      hsub.length_le
                  _ ≤ n := by
                      unfold trLen at hlen
                      rw [hl] at hlen
                      simp at hlen
                      omega
              exact ih (f2 + 2) s2 u hwf2 hlen2 (by omega)

/-- C2: on a back-edge at the current generation, transaction_verify_order_one
walks the recorded marker path; if some job on it is neither installed nor
mattering to the anchor, the first such job's unit is deleted from the
transaction and the pass asks to be run again (-EAGAIN), and the dropped job is
gone from every per-unit list of the result; if no such candidate exists the
pass fails with TRANSACTION_ORDER_IS_CYCLIC leaving the state unchanged. -/
theorem C2_cycle_breaker :
    ∀ (fuel : Nat) (s : State) (j : Nat) (from_ : Option Nat) (gen : Nat),
      (getJob s j).generation = gen →
      (getJob s j).marker ≠ none →
      (∀ d, (cycle_path s gen j (s.pool.length + 1) from_).find?
          (fun k0 => cycle_droppable s k0) = some d →
        (getJob s d).installed = false ∧
        unit_matters_to_anchor s (getJob s d).unit d = false ∧
        transaction_verify_order_one (fuel + 1) s j from_ gen =
          (-EAGAIN, none, transaction_delete_unit fuel s (getJob s d).unit) ∧
        (trWF s → trLen s (getJob s d).unit + 2 ≤ fuel →
          ∀ u l', (transaction_delete_unit fuel s (getJob s d).unit).tr_jobs.lookup u =
              some l' → d ∉ l')) ∧
      ((cycle_path s gen j (s.pool.length + 1) from_).find?
          (fun k0 => cycle_droppable s k0) = none →
        transaction_verify_order_one (fuel + 1) s j from_ gen =
          (-ENOEXEC, some BusError.TRANSACTION_ORDER_IS_CYCLIC, s)) := by
  intro fuel s j from_ gen hgen hmark
  constructor
  · intro d hfind
    have helig : cycle_droppable s d = true := by
      have := List.find?_some hfind
      simpa using this
    have hinst : (getJob s d).installed = false := by
      unfold cycle_droppable at helig
      rcases Bool.and_eq_true _ _ |>.mp helig with ⟨h1, _⟩
      simpa using h1
    have humta : unit_matters_to_anchor s (getJob s d).unit d = false := by
      unfold cycle_droppable at helig
      rcases Bool.and_eq_true _ _ |>.mp helig with ⟨_, h2⟩
      simpa using h2
    refine ⟨hinst, humta, ?_, ?_⟩
    · unfold transaction_verify_order_one
      dsimp only
      rw [if_pos hgen, if_neg (by simpa using hmark)]
      rw [cycle_walk_eq_find, hfind]
    · intro hwf hfl u l' hl'
      intro hmem
      by_cases hu : u = (getJob s d).unit
      · subst hu
        rw [delete_unit_gone (trLen s (getJob s d).unit) fuel s _ hwf (le_refl _) hfl]
          at hl'
        exact Option.noConfusion hl'
      · have hshr := delete_unit_shrink fuel s ((getJob s d).unit) u
        rw [hl'] at hshr
        simp only [Option.getD_some] at hshr
        have hds : d ∈ (s.tr_jobs.lookup u).getD [] := hshr.subset hmem
        cases hl0 : s.tr_jobs.lookup u with
        | none => rw [hl0] at hds; simp at hds
        | some l0 =>
            rw [hl0] at hds
            simp only [Option.getD_some] at hds
            obtain ⟨J, hpl, hun⟩ := hwf u l0 hl0 d hds
            apply hu
            simp [getJob, hpl]
            exact hun.symm
  · intro hfind
    unfold transaction_verify_order_one
    dsimp only
    rw [if_pos hgen, if_neg (by simpa using hmark)]
    rw [cycle_walk_eq_find, hfind]

theorem C2_witness :
    ((getJob W2 21).generation = 7 ∧ (getJob W2 21).marker ≠ none) ∧
    (transaction_verify_order_one 11 W2 21 (some 22) 7 =
       (-EAGAIN, none, transaction_delete_unit 10 W2 (getJob W2 22).unit)) ∧
    (∀ u l',
       (transaction_delete_unit 10 W2 (getJob W2 22).unit).tr_jobs.lookup u = some l' →
       22 ∉ l') := by
  have hwf : trWF W2 := by
    intro u l h jx hjx
    have hm := lookup_some_mem h
    simp [W2, emptyState] at hm
    rcases hm with ⟨hu, hl⟩ | ⟨hu, hl⟩ <;> subst hu <;> subst hl <;> simp at hjx <;>
      subst hjx
    · exact ⟨getJob W2 21, by decide, by decide⟩
    · exact ⟨getJob W2 22, by decide, by decide⟩
  have happ := (C2_cycle_breaker 10 W2 21 (some 22) 7 (by decide) (by decide)).1 22
    (by decide)
  exact ⟨⟨by decide, by decide⟩, happ.2.2.1, happ.2.2.2 hwf (by decide)⟩


/-! ## The ordering flag, the merge pass and the idempotent start (C7, C4, C8). -/

/-- C7 counterexample: a two-unit before-cycle whose jobs both have
ignore_order set and both matter to the anchor still fails the ordering pass
with TRANSACTION_ORDER_IS_CYCLIC: the flag does not exempt the cycle. -/
theorem C7_counterexample :
    (getJob (W7 true true) 31).ignore_order = true ∧
    (getJob (W7 true true) 32).ignore_order = true ∧
    (transaction_verify_order 20 (W7 true true) 1).1 = -ENOEXEC ∧
    (transaction_verify_order 20 (W7 true true) 1).2.1 =
      some BusError.TRANSACTION_ORDER_IS_CYCLIC := by decide

/-- C7 (amended): the ordering pass never consults ignore_order.  The builder
records the flag (timer.h line 899) but transaction_verify_order reads only
generation, marker, installed and matters_to_anchor, so the same before-cycle
of anchored jobs fails with TRANSACTION_ORDER_IS_CYCLIC under every assignment
of ignore_order flags to its two jobs. -/
theorem C7_ignore_order_not_consulted :
    ∀ b1 b2 : Bool,
      (transaction_verify_order 20 (W7 b1 b2) 1).1 = -ENOEXEC ∧
      (transaction_verify_order 20 (W7 b1 b2) 1).2.1 =
        some BusError.TRANSACTION_ORDER_IS_CYCLIC := by decide

/-- C8 counterexample: a transaction whose only job is START of an already
active unit with no live job, activated in FAIL mode, succeeds but installs
that one job into the manager's live map instead of installing nothing. -/
theorem C8_counterexample :
    (getUnit W8 1).active_state = UNIT_ACTIVE ∧
    (getUnit W8 1).job = none ∧
    (transaction_activate 30 W8 JobMode.JOB_FAIL (fun _ => false)).1 = 0 ∧
    ((transaction_activate 30 W8 JobMode.JOB_FAIL (fun _ => false)).2.2).m_jobs =
      [(11, 11)] := by decide

/-- C8 (amended): the redundant anchor START is kept, not dropped.  The job is
redundant for the unit's active state, yet drop_redundant's anchor guard
(timer.h line 337) refuses to drop the anchor job, so activation in FAIL mode
succeeds and installs exactly the anchor into the manager's live map. -/
theorem C8_anchor_kept_not_dropped :
    (job_type_is_redundant (getJob W8 11).type (getUnit W8 1).active_state = true ∧
     drop_redundant_check W8 11 = false) ∧
    (transaction_activate 30 W8 JobMode.JOB_FAIL (fun _ => false)).1 = 0 ∧
    ((transaction_activate 30 W8 JobMode.JOB_FAIL (fun _ => false)).2.2).m_jobs =
      [(11, 11)] ∧
    (getJob ((transaction_activate 30 W8 JobMode.JOB_FAIL (fun _ => false)).2.2) 11).installed
      = true := by decide

theorem getJob_setJob_ne (s : State) (j : Nat) (f : Job → Job) (x : Nat) (h : x ≠ j) :
    getJob (setJob s j f) x = getJob s x := by
  unfold getJob setJob
  dsimp only
  rw [lookup_map_entry f j s.pool x]
  cases s.pool.lookup x <;> simp [h]

theorem setJob_pool_lookup (s : State) (j : Nat) (f : Job → Job) (x : Nat) :
    (setJob s j f).pool.lookup x =
      (s.pool.lookup x).map (fun w => if x = j then f w else w) := by
  unfold setJob
  dsimp only
  rw [lookup_map_entry f j s.pool x]

theorem tr_detach_links (s : State) (j : Nat) : (tr_detach s j).links = s.links := by
  unfold tr_detach
  dsimp only
  cases s.tr_jobs.lookup ((getJob s j).unit) with
  | none => rfl
  | some l =>
      dsimp only
      split <;> rfl

theorem tr_detach_pool (s : State) (j : Nat) : (tr_detach s j).pool = s.pool := by
  unfold tr_detach
  dsimp only
  cases s.tr_jobs.lookup ((getJob s j).unit) with
  | none => rfl
  | some l =>
      dsimp only
      split <;> rfl

theorem tr_detach_units (s : State) (j : Nat) : (tr_detach s j).units = s.units := by
  unfold tr_detach
  dsimp only
  cases s.tr_jobs.lookup ((getJob s j).unit) with
  | none => rfl
  | some l =>
      dsimp only
      split <;> rfl

theorem tr_detach_tr_lookup (s : State) (j u' : Nat) :
    (tr_detach s j).tr_jobs.lookup u' =
      if u' = (getJob s j).unit then
        match s.tr_jobs.lookup ((getJob s j).unit) with
        | none => none
        | some l => if l.erase j = [] then none else some (l.erase j)
      else s.tr_jobs.lookup u' := by
  unfold tr_detach
  dsimp only
  cases hl : s.tr_jobs.lookup ((getJob s j).unit) with
  | none =>
      by_cases hu : u' = (getJob s j).unit
      · subst hu
        simp [hl]
      · simp [hu]
  | some l =>
      dsimp only
      by_cases he : l.erase j = []
      · rw [if_pos he]
        by_cases hu : u' = (getJob s j).unit
        · rw [if_pos hu, hu, if_pos he]
          exact alist_remove_lookup_self s.tr_jobs _
        · rw [if_neg hu]
          exact alist_remove_lookup_ne s.tr_jobs _ u' hu
      · rw [if_neg he]
        by_cases hu : u' = (getJob s j).unit
        · rw [if_pos hu, if_neg he, hu]
          exact alist_set_lookup_self s.tr_jobs _ (l.erase j)
        · rw [if_neg hu]
          exact alist_set_lookup_ne s.tr_jobs _ u' _ hu

theorem unlink_object_loop_none (fuel : Nat) (s : State) (x : Nat) (dd : Bool)
    (hf : s.links.find? (fun p => p.2.object = x) = none) :
    unlink_object_loop (fuel + 1) s x dd = s := by
  unfold unlink_object_loop
  rw [hf]

theorem unlink_job_nocascade (fuel : Nat) (s : State) (x : Nat) (dd : Bool)
    (hno : ∀ p ∈ s.links, p.2.object ≠ x) :
    transaction_unlink_job (fuel + 2) s x dd =
      { tr_detach s x with links := s.links.filter (fun p => p.2.subject ≠ x) } := by
  unfold transaction_unlink_job
  dsimp only
  rw [tr_detach_links]
  refine unlink_object_loop_none fuel _ x dd ?_
  refine List.find?_eq_none.mpr ?_
  intro a ha
  have ham := List.mem_of_mem_filter ha
  have := hno a ham
  simp [this]

theorem delete_job_nocascade (fuel : Nat) (s : State) (x : Nat) (dd : Bool)
    (hno : ∀ p ∈ s.links, p.2.object ≠ x) :
    transaction_delete_job (fuel + 3) s x dd =
      (let s2 : State :=
         { tr_detach s x with links := s.links.filter (fun p => p.2.subject ≠ x) }
       if (getJob s2 x).installed then s2 else job_free s2 x) := by
  unfold transaction_delete_job
  dsimp only
  rw [unlink_job_nocascade fuel s x dd hno]

theorem mad_eq (fuel : Nat) (s : State) (j other : Nat) (t : JobType)
    (hne : j ≠ other) :
    transaction_merge_and_delete_job (fuel + 3) s j other t =
      (let s1 := setJob s j (fun x =>
         { x with type := t, state := JOB_WAITING,
                  override := x.override || (getJob s other).override,
                  matters_to_anchor :=
                    x.matters_to_anchor || (getJob s other).matters_to_anchor })
       let s2 : State := { s1 with links := s1.links.map (fun p =>
           (p.1, { p.2 with
                     subject := if p.2.subject = other then j else p.2.subject,
                     object := if p.2.object = other then j else p.2.object })) }
       let s3 : State := { tr_detach s2 other with
         links := s2.links.filter (fun p => p.2.subject ≠ other) }
       if (getJob s3 other).installed then s3 else job_free s3 other) := by
  unfold transaction_merge_and_delete_job
  dsimp only
  refine delete_job_nocascade fuel _ other true ?_
  intro p hp
  dsimp only at hp
  rcases List.mem_map.mp hp with ⟨q, _, rfl⟩
  dsimp only
  by_cases ho : q.2.object = other
  · rw [if_pos ho]
    exact hne
  · rw [if_neg ho]
    exact ho

theorem mad_spec_eq (fuel : Nat) (s : State) (j other : Nat) (t : JobType)
    (hne : j ≠ other) :
    transaction_merge_and_delete_job (fuel + 3) s j other t = madSpec s j other t := by
  rw [mad_eq fuel s j other t hne]
  rfl

theorem madMid_pool_lookup (s : State) (j other : Nat) (t : JobType) (x : Nat) :
    (madMid s j other t).pool.lookup x =
      (s.pool.lookup x).map (fun w => if x = j then madMergeUpd s other t w else w) := by
  unfold madMid
  dsimp only
  exact setJob_pool_lookup s j _ x

theorem madMid_getJob_ne (s : State) (j other : Nat) (t : JobType) (x : Nat)
    (h : x ≠ j) : getJob (madMid s j other t) x = getJob s x := by
  unfold madMid
  dsimp only
  exact getJob_setJob_ne s j _ x h

theorem madSpec_tr_lookup (s : State) (j other : Nat) (t : JobType) (hne : j ≠ other)
    (u' : Nat) :
    (madSpec s j other t).tr_jobs.lookup u' =
      if u' = (getJob s other).unit then
        match s.tr_jobs.lookup ((getJob s other).unit) with
        | none => none
        | some l => if l.erase other = [] then none else some (l.erase other)
      else s.tr_jobs.lookup u' := by
  have hg : getJob (madMid s j other t) other = getJob s other :=
    madMid_getJob_ne s j other t other (Ne.symm hne)
  have h := tr_detach_tr_lookup (madMid s j other t) other u'
  rw [hg] at h
  rw [show (madMid s j other t).tr_jobs = s.tr_jobs from rfl] at h
  unfold madSpec
  dsimp only
  split
  · exact h
  · exact h

theorem madSpec_units (s : State) (j other : Nat) (t : JobType) :
    (madSpec s j other t).units = s.units := by
  unfold madSpec
  dsimp only
  split
  · exact tr_detach_units (madMid s j other t) other
  · exact tr_detach_units (madMid s j other t) other

theorem madSpec_pool (s : State) (j other : Nat) (t : JobType) :
    (madSpec s j other t).pool = (madMid s j other t).pool := by
  unfold madSpec
  dsimp only
  split
  · exact tr_detach_pool (madMid s j other t) other
  · exact tr_detach_pool (madMid s j other t) other

theorem madSpec_getJob_ne (s : State) (j other : Nat) (t : JobType) (x : Nat)
    (h : x ≠ j) : getJob (madSpec s j other t) x = getJob s x := by
  rw [getJob_ext (madSpec_pool s j other t : (madSpec s j other t).pool = (madMid s j other t).pool) x]
  exact madMid_getJob_ne s j other t x h

theorem madSpec_getJob_pres (s : State) (j other : Nat) (t : JobType) (x : Nat) :
    (getJob (madSpec s j other t) x).unit = (getJob s x).unit ∧
    (getJob (madSpec s j other t) x).installed = (getJob s x).installed := by
  rw [getJob_ext (madSpec_pool s j other t) x]
  unfold getJob
  rw [madMid_pool_lookup]
  cases s.pool.lookup x with
  | none => exact ⟨rfl, rfl⟩
  | some w =>
      simp only [Option.map_some', Option.getD_some]
      by_cases hx : x = j
      · rw [if_pos hx]
        exact ⟨rfl, rfl⟩
      · rw [if_neg hx]
        exact ⟨rfl, rfl⟩

theorem madSpec_pool_unit (s : State) (j other : Nat) (t : JobType) (x : Nat)
    (J : Job) (h : s.pool.lookup x = some J) :
    ∃ J2, (madSpec s j other t).pool.lookup x = some J2 ∧ J2.unit = J.unit := by
  rw [madSpec_pool, madMid_pool_lookup, h]
  refine ⟨_, rfl, ?_⟩
  show (if x = j then madMergeUpd s other t J else J).unit = J.unit
  by_cases hx : x = j
  · rw [if_pos hx]
    rfl
  · rw [if_neg hx]

theorem getUnit_ext {s t : State} (h : t.units = s.units) :
    ∀ u, getUnit t u = getUnit s u := by
  intro u
  simp [getUnit, h]

theorem madSpec_tr_cases (s : State) (j other : Nat) (t : JobType) (hne : j ≠ other)
    (u' : Nat) (l : List Nat)
    (hl : (madSpec s j other t).tr_jobs.lookup u' = some l) :
    s.tr_jobs.lookup u' = some l ∨
    (u' = (getJob s other).unit ∧
     ∃ l0, s.tr_jobs.lookup u' = some l0 ∧ l = l0.erase other ∧ l ≠ []) := by
  rw [madSpec_tr_lookup s j other t hne u'] at hl
  by_cases hu : u' = (getJob s other).unit
  · rw [if_pos hu] at hl
    cases hlk : s.tr_jobs.lookup ((getJob s other).unit) with
    | none =>
        rw [hlk] at hl
        simp at hl
    | some l0 =>
        rw [hlk] at hl
        simp only at hl
        by_cases he : l0.erase other = []
        · rw [if_pos he] at hl
          simp at hl
        · rw [if_neg he] at hl
          refine Or.inr ⟨hu, l0, ?_, ?_, ?_⟩
          · rw [hu]
            exact hlk
          · exact (Option.some.inj hl).symm
          · rw [Option.some.inj hl] at he
            exact he
  · rw [if_neg hu] at hl
    exact Or.inl hl

theorem madSpec_trWF (s : State) (j other : Nat) (t : JobType) (hne : j ≠ other)
    (hA : trWF s) : trWF (madSpec s j other t) := by
  intro u l hl x hx
  rcases madSpec_tr_cases s j other t hne u l hl with h | ⟨_, l0, hlk, hle, _⟩
  · obtain ⟨J, hp, hJ⟩ := hA u l h x hx
    obtain ⟨J2, hp2, hu2⟩ := madSpec_pool_unit s j other t x J hp
    exact ⟨J2, hp2, hu2.trans hJ⟩
  · subst hle
    obtain ⟨J, hp, hJ⟩ := hA u l0 hlk x (List.mem_of_mem_erase hx)
    obtain ⟨J2, hp2, hu2⟩ := madSpec_pool_unit s j other t x J hp
    exact ⟨J2, hp2, hu2.trans hJ⟩

theorem madSpec_trListsWF (s : State) (j other : Nat) (t : JobType) (hne : j ≠ other)
    (hB : trListsWF s) : trListsWF (madSpec s j other t) := by
  intro u l hl
  rcases madSpec_tr_cases s j other t hne u l hl with h | ⟨_, l0, hlk, hle, hnil⟩
  · exact hB u l h
  · subst hle
    exact ⟨hnil, ((hB u l0 hlk).2).erase other⟩

theorem madSpec_liveJobsWF (s : State) (j other : Nat) (t : JobType) (hne : j ≠ other)
    (hC : liveJobsWF s) : liveJobsWF (madSpec s j other t) := by
  intro u lj hjob
  rw [getUnit_ext (madSpec_units s j other t) u] at hjob
  obtain ⟨hinst, hnot⟩ := hC u lj hjob
  refine ⟨?_, ?_⟩
  · rw [(madSpec_getJob_pres s j other t lj).2]
    exact hinst
  · intro u2 l hl hmem
    rcases madSpec_tr_cases s j other t hne u2 l hl with h | ⟨_, l0, hlk, hle, _⟩
    · exact hnot u2 l h hmem
    · subst hle
      exact hnot u2 l0 hlk (List.mem_of_mem_erase hmem)

theorem collapseRel_comp {s m r : State} {u : Nat}
    (h1f : ∀ u', u' ≠ u → m.tr_jobs.lookup u' = s.tr_jobs.lookup u')
    (h1p : ∀ x, (getJob m x).unit = (getJob s x).unit ∧
                (getJob m x).installed = (getJob s x).installed)
    (h1t : ∀ x, (getJob s x).unit ≠ u → getJob m x = getJob s x)
    (h1u : m.units = s.units)
    (h2 : collapseRel m r u) : collapseRel s r u := by
  obtain ⟨h2f, h2p, h2t, h2u, h2A, h2B, h2C⟩ := h2
  refine ⟨?_, ?_, ?_, ?_, h2A, h2B, h2C⟩
  · intro u' hu'
    rw [h2f u' hu', h1f u' hu']
  · intro x
    exact ⟨(h2p x).1.trans (h1p x).1, (h2p x).2.trans (h1p x).2⟩
  · intro x hx
    have hmx : (getJob m x).unit ≠ u := by
      rw [(h1p x).1]
      exact hx
    rw [h2t x hmx, h1t x hx]
  · rw [h2u, h1u]

theorem madSpec_collapseRel (s : State) (u j other : Nat) (t : JobType)
    (hne : j ≠ other) (hju : (getJob s j).unit = u) (hou : (getJob s other).unit = u)
    (hA : trWF s) (hB : trListsWF s) (hC : liveJobsWF s) :
    collapseRel s (madSpec s j other t) u := by
  refine ⟨?_, ?_, ?_, madSpec_units s j other t,
    madSpec_trWF s j other t hne hA, madSpec_trListsWF s j other t hne hB,
    madSpec_liveJobsWF s j other t hne hC⟩
  · intro u' hu'
    rw [madSpec_tr_lookup s j other t hne u', if_neg (by rw [hou]; exact hu')]
  · intro x
    exact madSpec_getJob_pres s j other t x
  · intro x hx
    refine madSpec_getJob_ne s j other t x ?_
    intro hxe
    apply hx
    rw [hxe, hju]

theorem unit_of_mem (s : State) (u x : Nat) (l : List Nat) (hA : trWF s)
    (hl : s.tr_jobs.lookup u = some l) (hx : x ∈ l) : (getJob s x).unit = u := by
  obtain ⟨J, hp, hJ⟩ := hA u l hl x hx
  unfold getJob
  rw [hp]
  exact hJ

theorem merge_collapse_nil (fuel : Nat) (s : State) (u j : Nat) (t : JobType)
    (hl : s.tr_jobs.lookup u = some [j]) (hju : (getJob s j).unit = u)
    (hf : 1 ≤ fuel) :
    merge_collapse fuel s j t = (s, j) := by
  obtain ⟨f, rfl⟩ : ∃ f, fuel = f + 1 := ⟨fuel - 1, by omega⟩
  unfold merge_collapse
  have hnext : job_next_in_list s j = none := by
    unfold job_next_in_list
    rw [hju, hl]
    rfl
  rw [hnext]

theorem merge_collapse_singleton :
    ∀ (n fuel : Nat) (s : State) (u j : Nat) (l : List Nat) (t : JobType),
      trWF s → trListsWF s → liveJobsWF s →
      s.tr_jobs.lookup u = some (j :: l) →
      (j :: l).Nodup →
      l.length ≤ n →
      l.length + 4 ≤ fuel →
      (merge_collapse fuel s j t).1.tr_jobs.lookup u =
        some [(merge_collapse fuel s j t).2] ∧
      (getJob (merge_collapse fuel s j t).1 (merge_collapse fuel s j t).2).unit = u ∧
      collapseRel s (merge_collapse fuel s j t).1 u := by
  intro n
  induction n with
  | zero =>
      intro fuel s u j l t hA hB hC hl hnd hln hfl
      have hl0 : l = [] := List.eq_nil_of_length_eq_zero (Nat.le_zero.mp hln)
      subst hl0
      have hju : (getJob s j).unit = u :=
        unit_of_mem s u j [j] hA hl (by simp)
      rw [merge_collapse_nil fuel s u j t hl hju (by omega)]
      exact ⟨hl, hju, fun _ _ => rfl, fun _ => ⟨rfl, rfl⟩, fun _ _ => rfl, rfl, hA, hB, hC⟩
  | succ n ih =>
      intro fuel s u j l t hA hB hC hl hnd hln hfl
      cases l with
      | nil =>
          have hju : (getJob s j).unit = u :=
            unit_of_mem s u j [j] hA hl (by simp)
          rw [merge_collapse_nil fuel s u j t hl hju (by omega)]
          exact ⟨hl, hju, fun _ _ => rfl, fun _ => ⟨rfl, rfl⟩, fun _ _ => rfl, rfl,
            hA, hB, hC⟩
      | cons k l2 =>
          obtain ⟨f3, rfl⟩ : ∃ f3, fuel = f3 + 3 + 1 := ⟨fuel - 4, by simp at hfl; omega⟩
          have hju : (getJob s j).unit = u :=
            unit_of_mem s u j _ hA hl (by simp)
          have hku : (getJob s k).unit = u :=
            unit_of_mem s u k _ hA hl (by simp)
          have hjk : j ≠ k := by
            intro h
            apply (List.nodup_cons.mp hnd).1
            rw [h]
            exact List.mem_cons_self k l2
          have hnext : job_next_in_list s j = some k := by
            unfold job_next_in_list
            rw [hju, hl]
            show nextAfter (j :: k :: l2) j = some k
            unfold nextAfter
            rw [if_pos rfl]
          unfold merge_collapse
          rw [hnext]
          dsimp only
          have hln2 : l2.length ≤ n := by simp at hln; omega
          have hfl2 : l2.length + 4 ≤ f3 + 3 := by simp at hfl; omega
          by_cases hinst : (getJob s j).installed = true
          · rw [if_pos hinst]
            rw [mad_spec_eq f3 s k j t (Ne.symm hjk)]
            have hrel : collapseRel s (madSpec s k j t) u :=
              madSpec_collapseRel s u k j t (Ne.symm hjk) hku hju hA hB hC
            obtain ⟨hf', hp', ht', hu', hA', hB', hC'⟩ := hrel
            have hlm : (madSpec s k j t).tr_jobs.lookup u = some (k :: l2) := by
              rw [madSpec_tr_lookup s k j t (Ne.symm hjk) u, if_pos hju.symm, hju, hl]
              simp
            have hndm : (k :: l2).Nodup := (List.nodup_cons.mp hnd).2
            obtain ⟨c1, c2, c3⟩ := ih (f3 + 3) (madSpec s k j t) u k l2 t hA' hB' hC'
              hlm hndm hln2 hfl2
            exact ⟨c1, c2, collapseRel_comp hf' hp' ht' hu' c3⟩
          · rw [if_neg hinst]
            rw [mad_spec_eq f3 s j k t hjk]
            have hrel : collapseRel s (madSpec s j k t) u :=
              madSpec_collapseRel s u j k t hjk hju hku hA hB hC
            obtain ⟨hf', hp', ht', hu', hA', hB', hC'⟩ := hrel
            have hlm : (madSpec s j k t).tr_jobs.lookup u = some (j :: l2) := by
              rw [madSpec_tr_lookup s j k t hjk u, if_pos hku.symm, hku, hl]
              simp [List.erase_cons, hjk]
            have hndm : (j :: l2).Nodup := by
              have hsub : List.Sublist (j :: l2) (j :: k :: l2) := by
                refine List.Sublist.cons₂ j ?_
                exact List.sublist_cons_self k l2
              exact hnd.sublist hsub
            obtain ⟨c1, c2, c3⟩ := ih (f3 + 3) (madSpec s j k t) u j l2 t hA' hB' hC'
              hlm hndm hln2 hfl2
            exact ⟨c1, c2, collapseRel_comp hf' hp' ht' hu' c3⟩

theorem collapseRel_refl {s : State} {u : Nat} (hA : trWF s) (hB : trListsWF s)
    (hC : liveJobsWF s) : collapseRel s s u :=
  ⟨fun _ _ => rfl, fun _ => ⟨rfl, rfl⟩, fun _ _ => rfl, rfl, hA, hB, hC⟩

theorem merge_step2_one_spec (fuel : Nat) (s : State) (u : Nat)
    (hA : trWF s) (hB : trListsWF s) (hC : liveJobsWF s)
    (hfold : ∀ j rest, s.tr_jobs.lookup u = some (j :: rest) →
       (merge_fold s (getJob s j).type rest).isSome)
    (hfuel : ∀ l, s.tr_jobs.lookup u = some l → l.length + 4 ≤ fuel) :
    singletonOrGone (merge_step2_one fuel s u) u ∧
    collapseRel s (merge_step2_one fuel s u) u := by
  unfold merge_step2_one
  cases hlk : s.tr_jobs.lookup u with
  | none =>
      exact ⟨Or.inl hlk, collapseRel_refl hA hB hC⟩
  | some l =>
      cases l with
      | nil => exact absurd rfl (hB u [] hlk).1
      | cons j rest =>
          obtain ⟨t0, ht0⟩ := Option.isSome_iff_exists.mp (hfold j rest hlk)
          dsimp only
          rw [ht0]
          have hju : (getJob s j).unit = u := unit_of_mem s u j _ hA hlk (by simp)
          rw [hju]
          have hfu : rest.length + 4 ≤ fuel := by
            have := hfuel _ hlk
            simp at this
            omega
          have hf5 : 5 ≤ fuel := by
            have := hfuel _ hlk
            simp at this
            omega
          cases hlj0 : (getUnit s u).job with
          | none =>
              dsimp only
              obtain ⟨hc1, hc2, hcrel⟩ := merge_collapse_singleton rest.length fuel s
                u j rest t0 hA hB hC hlk (hB u _ hlk).2 (le_refl _) hfu
              obtain ⟨hf', hp', ht', hu', hA', hB', hC'⟩ := hcrel
              rw [hc2, getUnit_ext hu' u, hlj0]
              exact ⟨Or.inr ⟨_, hc1⟩, hf', hp', ht', hu', hA', hB', hC'⟩
          | some lj0 =>
              dsimp only
              obtain ⟨hc1, hc2, hcrel⟩ := merge_collapse_singleton rest.length fuel s
                u j rest ((job_type_merge t0 (getJob s lj0).type).getD t0)
                hA hB hC hlk (hB u _ hlk).2 (le_refl _) hfu
              obtain ⟨hf', hp', ht', hu', hA', hB', hC'⟩ := hcrel
              rw [hc2, getUnit_ext hu' u, hlj0]
              dsimp only
              obtain ⟨hlinst, hlnot⟩ := hC u lj0 hlj0
              by_cases hi2 : (getJob (merge_collapse fuel s j
                  ((job_type_merge t0 (getJob s lj0).type).getD t0)).1
                  (merge_collapse fuel s j
                  ((job_type_merge t0 (getJob s lj0).type).getD t0)).2).installed = true
              · rw [if_pos hi2]
                exact ⟨Or.inr ⟨_, hc1⟩, hf', hp', ht', hu', hA', hB', hC'⟩
              · rw [if_neg hi2]
                obtain ⟨f3, hf3⟩ : ∃ f3, fuel = f3 + 3 := ⟨fuel - 3, by omega⟩
                subst hf3
                have hlinst1 : (getJob (merge_collapse (f3 + 3) s j
                    ((job_type_merge t0 (getJob s lj0).type).getD t0)).1 lj0).installed
                    = true := by
                  rw [(hp' lj0).2]
                  exact hlinst
                have hne2 : (merge_collapse (f3 + 3) s j
                    ((job_type_merge t0 (getJob s lj0).type).getD t0)).2 ≠ lj0 := by
                  intro h
                  apply hi2
                  rw [h]
                  exact hlinst1
                rw [mad_spec_eq f3 _ _ lj0 _ hne2]
                have hljs1 : (getUnit (merge_collapse (f3 + 3) s j
                    ((job_type_merge t0 (getJob s lj0).type).getD t0)).1 u).job
                    = some lj0 := by
                  rw [getUnit_ext hu' u]
                  exact hlj0
                have hnotin1 := (hC' u lj0 hljs1).2
                have hfr2 : ∀ u', (madSpec (merge_collapse (f3 + 3) s j
                    ((job_type_merge t0 (getJob s lj0).type).getD t0)).1
                    (merge_collapse (f3 + 3) s j
                    ((job_type_merge t0 (getJob s lj0).type).getD t0)).2 lj0
                    ((job_type_merge t0 (getJob s lj0).type).getD t0)).tr_jobs.lookup u'
                    = (merge_collapse (f3 + 3) s j
                    ((job_type_merge t0 (getJob s lj0).type).getD t0)).1.tr_jobs.lookup u' := by
                  intro u'
                  rw [madSpec_tr_lookup _ _ _ _ hne2 u']
                  by_cases hw : u' = (getJob (merge_collapse (f3 + 3) s j
                      ((job_type_merge t0 (getJob s lj0).type).getD t0)).1 lj0).unit
                  · rw [if_pos hw]
                    cases hlw : (merge_collapse (f3 + 3) s j
                        ((job_type_merge t0 (getJob s lj0).type).getD t0)).1.tr_jobs.lookup
                        ((getJob (merge_collapse (f3 + 3) s j
                        ((job_type_merge t0 (getJob s lj0).type).getD t0)).1 lj0).unit) with
                    | none =>
                        rw [hw, hlw]
                    | some lw =>
                        have hmemw : lj0 ∉ lw := hnotin1 _ lw hlw
                        have herase : lw.erase lj0 = lw := List.erase_of_not_mem hmemw
                        rw [hw, hlw]
                        dsimp only
                        rw [herase, if_neg (hB' _ lw hlw).1]
                  · rw [if_neg hw]
                refine ⟨?_, ?_⟩
                · exact Or.inr ⟨_, (hfr2 u).trans hc1⟩
                · refine collapseRel_comp hf' hp' ht' hu' ?_
                  refine ⟨fun u' _ => hfr2 u', fun x => madSpec_getJob_pres _ _ _ _ x,
                    ?_, madSpec_units _ _ _ _,
                    madSpec_trWF _ _ _ _ hne2 hA', madSpec_trListsWF _ _ _ _ hne2 hB',
                    madSpec_liveJobsWF _ _ _ _ hne2 hC'⟩
                  intro x hx
                  refine madSpec_getJob_ne _ _ _ _ x ?_
                  intro hxe
                  apply hx
                  rw [hxe]
                  exact hc2

theorem merge_fold_congr (s' s : State) (l : List Nat)
    (h : ∀ x ∈ l, (getJob s' x).type = (getJob s x).type) :
    ∀ t, merge_fold s' t l = merge_fold s t l := by
  induction l with
  | nil => intro t; rfl
  | cons a l2 ih =>
      intro t
      unfold merge_fold
      rw [h a (by simp)]
      cases job_type_merge t (getJob s a).type with
      | none => rfl
      | some t2 => exact ih (fun x hx => h x (by simp [hx])) t2

theorem lookup_none_of_not_mem_keys {α : Type} (m : List (Nat × α)) (u : Nat)
    (h : u ∉ m.map Prod.fst) : m.lookup u = none := by
  induction m with
  | nil => rfl
  | cons p rest ih =>
      obtain ⟨k, w⟩ := p
      simp only [List.map_cons, List.mem_cons] at h
      push_neg at h
      rw [lookup_cons_ne (Ne.symm h.1)]
      exact ih h.2

theorem merge_check_one_none (fuel : Nat) (s : State) (j : Nat) (rest : List Nat)
    (h : merge_check_one fuel s (j :: rest) = none) :
    (merge_fold s (getJob s j).type rest).isSome := by
  by_cases hi : (merge_fold s (getJob s j).type rest).isSome
  · exact hi
  · exfalso
    simp only [merge_check_one] at h
    rw [if_neg hi] at h
    split at h <;> simp at h

theorem merge_check_one_some (fuel : Nat) (s : State) (l : List Nat)
    (out : Int × Option BusError × State)
    (h : merge_check_one fuel s l = some out) : out.1 = -EAGAIN ∨ out.1 < 0 := by
  cases l with
  | nil => exact absurd h (by simp [merge_check_one])
  | cons j rest =>
      simp only [merge_check_one] at h
      by_cases hi : (merge_fold s (getJob s j).type rest).isSome
      · rw [if_pos hi] at h
        exact absurd h (by simp)
      · rw [if_neg hi] at h
        split at h
        · left
          rw [← Option.some.inj h]
        · right
          rw [← Option.some.inj h]
          omega

theorem merge_step1_none_entry (fuel : Nat) (s : State) :
    ∀ (entries : List (Nat × List Nat)),
      merge_step1 fuel s entries = none →
      ∀ p ∈ entries, merge_check_one fuel s p.2 = none := by
  intro entries
  induction entries with
  | nil => intro _ p hp; exact absurd hp (by simp)
  | cons q rest ih =>
      intro h p hp
      unfold merge_step1 at h
      rcases List.mem_cons.mp hp with hq | hq
      · subst hq
        cases hco : merge_check_one fuel s p.2 with
        | none => rfl
        | some out =>
            rw [hco] at h
            exact absurd h (by simp)
      · cases hco : merge_check_one fuel s q.2 with
        | none =>
            rw [hco] at h
            exact ih h p hq
        | some out =>
            rw [hco] at h
            exact absurd h (by simp)

theorem merge_step1_some_ne (fuel : Nat) (s : State) :
    ∀ (entries : List (Nat × List Nat)) (out : Int × Option BusError × State),
      merge_step1 fuel s entries = some out → out.1 ≠ 0 := by
  intro entries
  induction entries with
  | nil => intro out h; exact absurd h (by simp [merge_step1])
  | cons q rest ih =>
      intro out h
      unfold merge_step1 at h
      cases hco : merge_check_one fuel s q.2 with
      | none =>
          rw [hco] at h
          exact ih out h
      | some out2 =>
          rw [hco] at h
          have := merge_check_one_some fuel s q.2 out2 hco
          rw [Option.some.inj h] at this
          rcases this with h1 | h1
          · rw [h1]
            simp [EAGAIN]
          · omega

theorem step2_fold_spec :
    ∀ (keys : List Nat) (fuel : Nat) (s : State),
      trWF s → trListsWF s → liveJobsWF s →
      (∀ u j rest, s.tr_jobs.lookup u = some (j :: rest) →
         (merge_fold s (getJob s j).type rest).isSome) →
      (∀ u l, s.tr_jobs.lookup u = some l → l.length + 4 ≤ fuel) →
      5 ≤ fuel →
      (∀ u, u ∉ keys → singletonOrGone s u) →
      ∀ u, singletonOrGone
        (keys.foldl (fun s1 u2 => merge_step2_one fuel s1 u2) s) u := by
  intro keys
  induction keys with
  | nil =>
      intro fuel s _ _ _ _ _ _ hsog u
      exact hsog u (by simp)
  | cons k ks ih =>
      intro fuel s hA hB hC hfold hfuel h5 hsog u
      rw [List.foldl_cons]
      obtain ⟨hsogk, hf', hp', ht', hu', hA', hB', hC'⟩ :=
        merge_step2_one_spec fuel s k hA hB hC
          (fun j rest h => hfold k j rest h) (fun l h => hfuel k l h)
      refine ih fuel (merge_step2_one fuel s k) hA' hB' hC' ?_ ?_ h5 ?_ u
      · intro u0 j rest h
        by_cases hu0 : u0 = k
        · subst hu0
          rcases hsogk with hn | ⟨x, hx⟩
          · rw [h] at hn
            exact Option.noConfusion hn
          · rw [h] at hx
            have : j :: rest = [x] := Option.some.inj hx
            have hrest : rest = [] := by
              cases rest with
              | nil => rfl
              | cons a b => simp at this
            subst hrest
            rfl
        · rw [hf' u0 hu0] at h
          have htypes : ∀ x ∈ j :: rest,
              (getJob (merge_step2_one fuel s k) x).type = (getJob s x).type := by
            intro x hx
            have hxu : (getJob s x).unit = u0 := unit_of_mem s u0 x _ hA h hx
            rw [ht' x (by rw [hxu]; exact hu0)]
          rw [merge_fold_congr _ s rest (fun x hx => htypes x (by simp [hx])),
            htypes j (by simp)]
          exact hfold u0 j rest h
      · intro u0 l h
        by_cases hu0 : u0 = k
        · subst hu0
          rcases hsogk with hn | ⟨x, hx⟩
          · rw [h] at hn
            exact Option.noConfusion hn
          · rw [h] at hx
            have : l = [x] := Option.some.inj hx
            rw [this]
            simpa using h5
        · rw [hf' u0 hu0] at h
          exact hfuel u0 l h
      · intro u0 hu0
        by_cases huk : u0 = k
        · subst huk
          exact hsogk
        · have := hsog u0 (by simp [hu0, huk])
          rcases this with hn | ⟨x, hx⟩
          · exact Or.inl ((hf' u0 huk).trans hn)
          · exact Or.inr ⟨x, (hf' u0 huk).trans hx⟩

/-- C4: when transaction_merge_jobs returns 0 (so its first pass found every
per-unit list type-mergeable), the second pass collapses every per-unit job
list of the transaction to a single job: each unit still present in the map
holds exactly one job.  Requires the transaction's documented shape: per-unit
lists are nonempty, duplicate-free and made of pool jobs of that unit, units'
live jobs are installed and outside the lists, and the fuel dominates every
list's length. -/
theorem C4_merge_collapses_to_singletons (fuel : Nat) (s : State)
    (hA : trWF s) (hB : trListsWF s) (hC : liveJobsWF s)
    (hfuel : ∀ u l, s.tr_jobs.lookup u = some l → l.length + 4 ≤ fuel)
    (h5 : 5 ≤ fuel)
    (h0 : (transaction_merge_jobs fuel s).1 = 0) :
    ∀ u l, ((transaction_merge_jobs fuel s).2.2).tr_jobs.lookup u = some l →
      ∃ x, l = [x] := by
  intro u l hl
  unfold transaction_merge_jobs at h0 hl
  cases hst : merge_step1 fuel s s.tr_jobs with
  | some out =>
      rw [hst] at h0
      dsimp only at h0
      exact absurd h0 (merge_step1_some_ne fuel s s.tr_jobs out hst)
  | none =>
      rw [hst] at hl
      dsimp only at hl
      have hfold : ∀ u0 j rest, s.tr_jobs.lookup u0 = some (j :: rest) →
          (merge_fold s (getJob s j).type rest).isSome := by
        intro u0 j rest h
        have hmem := lookup_some_mem h
        have hch := merge_step1_none_entry fuel s s.tr_jobs hst (u0, j :: rest) hmem
        exact merge_check_one_none fuel s j rest hch
      have hsog := step2_fold_spec (s.tr_jobs.map Prod.fst) fuel s hA hB hC hfold
        hfuel h5 (fun u0 h => Or.inl (lookup_none_of_not_mem_keys s.tr_jobs u0 h)) u
      rcases hsog with hn | ⟨x, hx⟩
      · rw [hl] at hn
        exact Option.noConfusion hn
      · rw [hl] at hx
        exact ⟨x, Option.some.inj hx⟩

theorem C4_witness :
    (transaction_merge_jobs 10 W4).1 = 0 ∧
    (∀ u l, ((transaction_merge_jobs 10 W4).2.2).tr_jobs.lookup u = some l →
       ∃ x, l = [x]) := by
  have hA : trWF W4 := by
    intro u l h jx hjx
    have hm := lookup_some_mem h
    simp [W4, emptyState] at hm
    obtain ⟨hu, hlv⟩ := hm
    subst hu
    subst hlv
    simp at hjx
    rcases hjx with h1 | h1 <;> subst h1
    · exact ⟨getJob W4 41, by decide, by decide⟩
    · exact ⟨getJob W4 42, by decide, by decide⟩
  have hB : trListsWF W4 := by
    intro u l h
    have hm := lookup_some_mem h
    simp [W4, emptyState] at hm
    obtain ⟨hu, hlv⟩ := hm
    subst hlv
    exact ⟨by simp, by decide⟩
  have hC : liveJobsWF W4 := by
    intro u lj h
    exfalso
    unfold getUnit at h
    cases hu : W4.units.lookup u with
    | none =>
        rw [hu] at h
        simp [defaultUnit] at h
    | some U =>
        rw [hu] at h
        have hm := lookup_some_mem hu
        simp [W4, emptyState] at hm
        obtain ⟨_, hU⟩ := hm
        subst hU
        simp [mkU, defaultUnit] at h
  have hfuel : ∀ u l, W4.tr_jobs.lookup u = some l → l.length + 4 ≤ 10 := by
    intro u l h
    have hm := lookup_some_mem h
    simp [W4, emptyState] at hm
    obtain ⟨_, hlv⟩ := hm
    subst hlv
    simp
  exact ⟨by decide, C4_merge_collapses_to_singletons 10 W4 hA hB hC hfuel (by omega)
    (by decide)⟩

end SystemdTransaction
